import Mathlib

/-!
Verification development for the alpaca entity-retrieval system.

The Python sources are shallowly embedded: free-form JSON entities become the
inductive `Jv`; text functions are embedded at the ASCII level (the Unicode
normalisation steps NFC/NFKD/casefold are identity/ASCII-lowercase on the ASCII
fragment exercised here); floats whose exact rounding is irrelevant to the
claims are embedded as rationals; the real-valued prior transform is embedded
over `ℝ`; the external search engine and the SQL tables are modelled as
explicit data (finite maps / oracles) passed to the embedded functions.
-/

namespace Alpaca

/-! ### ASCII string helpers (embedding `common.normalize_text`, `common.tokenize`,
`str.strip`, `str.casefold`, restricted to the ASCII fragment). -/

/-- ASCII whitespace, matching Python `\s` on ASCII text. -/
def isWs (c : Char) : Bool :=
  c == ' ' || c == '\t' || c == '\n' || c == '\r' || c == Char.ofNat 11 || c == Char.ofNat 12

/-- Collapse every whitespace run to a single `' '` (state: previous char was ws). -/
def collapseWsAux : Bool → List Char → List Char
  | _, [] => []
  | prevWs, c :: rest =>
    if isWs c then
      if prevWs then collapseWsAux true rest else ' ' :: collapseWsAux true rest
    else c :: collapseWsAux false rest

/-- Trim ASCII whitespace from both ends of a char list. -/
def trimChars (cs : List Char) : List Char :=
  ((cs.dropWhile (fun c => isWs c)).reverse.dropWhile (fun c => isWs c)).reverse

/-- Embeds Python `str.strip()`. -/
def pyStrip (s : String) : String := ⟨trimChars s.data⟩

/-- Embeds `common.normalize_text`: collapse whitespace runs to one space, then trim. -/
def normalizeText (s : String) : String := ⟨trimChars (collapseWsAux false s.data)⟩

/-- ASCII casefold (Python `str.casefold` restricted to ASCII). -/
def asciiCasefold (s : String) : String := ⟨s.data.map Char.toLower⟩

/-- ASCII alphanumeric test (Python `[^\W_]` on ASCII). -/
def isAlnum (c : Char) : Bool := c.isAlphanum

/-- Split a char list into maximal alphanumeric runs (accumulator holds the
current run, reversed). -/
def alnumRunsAux : List Char → List Char → List String
  | [], acc => if acc.isEmpty then [] else [⟨acc.reverse⟩]
  | c :: rest, acc =>
    if isAlnum c then alnumRunsAux rest (c :: acc)
    else if acc.isEmpty then alnumRunsAux rest []
    else ⟨acc.reverse⟩ :: alnumRunsAux rest []

/-- Embeds `common.tokenize`: normalise, casefold, then take alphanumeric runs. -/
def tokenize (s : String) : List String :=
  alnumRunsAux (asciiCasefold (normalizeText s)).data []

/-- First-seen-order deduplication (the `seen`-set pattern used across the code). -/
def dedupFirstAux : List String → List String → List String
  | _, [] => []
  | seen, x :: rest =>
    if x ∈ seen then dedupFirstAux seen rest
    else x :: dedupFirstAux (x :: seen) rest

def dedupFirst (xs : List String) : List String := dedupFirstAux [] xs

/-- Code-point lexicographic comparison of char lists: Python string `<=`. -/
def charListLe : List Char → List Char → Bool
  | [], _ => true
  | _ :: _, [] => false
  | a :: as, b :: bs =>
    if a.toNat < b.toNat then true
    else if b.toNat < a.toNat then false
    else charListLe as bs

/-- Embeds Python string comparison (code-point lexicographic order). -/
def pyStrLe (a b : String) : Prop := charListLe a.data b.data = true

instance : DecidableRel pyStrLe := fun a b =>
  inferInstanceAs (Decidable (charListLe a.data b.data = true))

/-- Python tuple comparison, one component at a time: compare under `f`, on
ties fall through to `r`.  Used to embed every `sort(key=...)` in the code. -/
def lexComp {α β : Type} [LT β] (f : α → β) (r : α → α → Prop) (a b : α) : Prop :=
  f a < f b ∨ (f a = f b ∧ r a b)

instance {α β : Type} [LinearOrder β] (f : α → β) (r : α → α → Prop) [DecidableRel r] :
    DecidableRel (lexComp f r) := fun a b => by unfold lexComp; infer_instance

/-! ### SHA-256 over byte lists (embedding `hashlib.sha256(...).hexdigest()`). -/

def M32 : Nat := 4294967296

def rotr (n x : Nat) : Nat :=
  ((x >>> n) ||| (x <<< (32 - n))) % M32

def shaK : List Nat :=
  [1116352408, 1899447441, 3049323471, 3921009573, 961987163, 1508970993,
   2453635748, 2870763221, 3624381080, 310598401, 607225278, 1426881987,
   1925078388, 2162078206, 2614888103, 3248222580, 3835390401, 4022224774,
   264347078, 604807628, 770255983, 1249150122, 1555081692, 1996064986,
   2554220882, 2821834349, 2952996808, 3210313671, 3336571891, 3584528711,
   113926993, 338241895, 666307205, 773529912, 1294757372, 1396182291,
   1695183700, 1986661051, 2177026350, 2456956037, 2730485921, 2820302411,
   3259730800, 3345764771, 3516065817, 3600352804, 4094571909, 275423344,
   430227734, 506948616, 659060556, 883997877, 958139571, 1322822218,
   1537002063, 1747873779, 1955562222, 2024104815, 2227730452, 2361852424,
   2428436474, 2756734187, 3204031479, 3329325298]

def shaH0 : List Nat :=
  [1779033703, 3144134277, 1013904242, 2773480762,
   1359893119, 2600822924, 528734635, 1541459225]

def padMessage (msg : List Nat) : List Nat :=
  let len := msg.length
  let bitLen := 8 * len
  let padZeros := (64 - ((len + 9) % 64)) % 64
  msg ++ [0x80] ++ List.replicate padZeros 0 ++
    [(bitLen >>> 56) % 256, (bitLen >>> 48) % 256, (bitLen >>> 40) % 256, (bitLen >>> 32) % 256,
     (bitLen >>> 24) % 256, (bitLen >>> 16) % 256, (bitLen >>> 8) % 256, bitLen % 256]

def bytesToWords : List Nat → List Nat
  | b0 :: b1 :: b2 :: b3 :: rest => (((b0 * 256 + b1) * 256 + b2) * 256 + b3) :: bytesToWords rest
  | _ => []

def chunks64Aux : Nat → List Nat → List (List Nat)
  | 0, _ => []
  | fuel + 1, bs => if bs.length < 64 then [] else bs.take 64 :: chunks64Aux fuel (bs.drop 64)

def chunks64 (bs : List Nat) : List (List Nat) := chunks64Aux bs.length bs

def smallSigma0 (x : Nat) : Nat := (rotr 7 x) ^^^ (rotr 18 x) ^^^ (x >>> 3)

def smallSigma1 (x : Nat) : Nat := (rotr 17 x) ^^^ (rotr 19 x) ^^^ (x >>> 10)

def bigSigma0 (x : Nat) : Nat := (rotr 2 x) ^^^ (rotr 13 x) ^^^ (rotr 22 x)

def bigSigma1 (x : Nat) : Nat := (rotr 6 x) ^^^ (rotr 11 x) ^^^ (rotr 25 x)

def extendSchedule : Nat → List Nat → List Nat
  | 0, ws => ws
  | n + 1, ws =>
    let k := ws.length
    let w := (ws.getD (k - 16) 0 + smallSigma0 (ws.getD (k - 15) 0) +
              ws.getD (k - 7) 0 + smallSigma1 (ws.getD (k - 2) 0)) % M32
    extendSchedule n (ws ++ [w])

def compressStep (state : List Nat) (kw : Nat × Nat) : List Nat :=
  match state with
  | [a, b, c, d, e, f, g, h] =>
    let t1 := (h + bigSigma1 e + ((e &&& f) ^^^ ((M32 - 1 - e) &&& g)) + kw.1 + kw.2) % M32
    let t2 := (bigSigma0 a + ((a &&& b) ^^^ (a &&& c) ^^^ (b &&& c))) % M32
    [(t1 + t2) % M32, a, b, c, (d + t1) % M32, e, f, g]
  | s => s

def processChunk (hs : List Nat) (chunk : List Nat) : List Nat :=
  let ws := extendSchedule 48 (bytesToWords chunk)
  let final := (shaK.zip ws).foldl compressStep hs
  (hs.zip final).map (fun p => (p.1 + p.2) % M32)

def sha256Words (msg : List Nat) : List Nat :=
  (chunks64 (padMessage msg)).foldl processChunk shaH0

def hexDigit (n : Nat) : Char :=
  if n < 10 then Char.ofNat (48 + n) else Char.ofNat (87 + n)

def word32Hex (w : Nat) : List Char :=
  [hexDigit ((w >>> 28) % 16), hexDigit ((w >>> 24) % 16), hexDigit ((w >>> 20) % 16),
   hexDigit ((w >>> 16) % 16), hexDigit ((w >>> 12) % 16), hexDigit ((w >>> 8) % 16),
   hexDigit ((w >>> 4) % 16), hexDigit (w % 16)]

/-- UTF-8 bytes of one code point. -/
def utf8Char (c : Char) : List Nat :=
  let n := c.toNat
  if n < 0x80 then [n]
  else if n < 0x800 then [0xc0 + n / 64, 0x80 + n % 64]
  else if n < 0x10000 then [0xe0 + n / 4096, 0x80 + (n / 64) % 64, 0x80 + n % 64]
  else [0xf0 + n / 262144, 0x80 + (n / 4096) % 64, 0x80 + (n / 64) % 64, 0x80 + n % 64]

def utf8Encode (s : String) : List Nat := s.data.flatMap utf8Char

/-- Embeds `hashlib.sha256(text.encode("utf-8")).hexdigest()`. -/
def sha256Hex (s : String) : String :=
  ⟨(sha256Words (utf8Encode s)).flatMap word32Hex⟩

/-! ### JSON values and `json.dumps(..., sort_keys=True, separators=(",", ":"),
ensure_ascii=False)`. Entities streamed from the dump are free-form JSON and are
embedded as `Jv`. -/

inductive Jv where
  | null : Jv
  | bool : Bool → Jv
  | int : Int → Jv
  | str : String → Jv
  | arr : List Jv → Jv
  | obj : List (String × Jv) → Jv

/-- Python object identity helpers: `isinstance(x, Mapping)` and friends. -/
def Jv.getField (j : Jv) (k : String) : Option Jv :=
  match j with
  | .obj fields => fields.lookup k
  | _ => none

def Jv.asStr : Jv → Option String
  | .str s => some s
  | _ => none

def Jv.asList : Jv → Option (List Jv)
  | .arr xs => some xs
  | _ => none

def Jv.asObj : Jv → Option (List (String × Jv))
  | .obj fields => some fields
  | _ => none

def Jv.asInt : Jv → Option Int
  | .int n => some n
  | _ => none

def Jv.isStrEq (j : Jv) (s : String) : Bool :=
  match j with
  | .str v => v == s
  | _ => false

/-- JSON string escaping as in Python `json.dumps` (`ensure_ascii=False`). -/
def jsonEscapeChar (c : Char) : List Char :=
  if c = '"' then ['\\', '"']
  else if c = '\\' then ['\\', '\\']
  else if c = '\n' then ['\\', 'n']
  else if c = '\t' then ['\\', 't']
  else if c = '\r' then ['\\', 'r']
  else if c = Char.ofNat 8 then ['\\', 'b']
  else if c = Char.ofNat 12 then ['\\', 'f']
  else if c.toNat < 32 then ['\\', 'u', '0', '0', hexDigit (c.toNat / 16), hexDigit (c.toNat % 16)]
  else [c]

def jsonStrEnc (s : String) : String := "\"" ++ ⟨s.data.flatMap jsonEscapeChar⟩ ++ "\""

/-- Object keys are emitted in sorted order (`sort_keys=True`). -/
def sortFields (fields : List (String × Jv)) : List (String × Jv) :=
  List.insertionSort (fun a b => pyStrLe a.1 b.1) fields

/-- Fuelled canonical JSON encoder (compact separators, sorted keys).  The fuel
only bounds the nesting depth; every call site passes a fuel at least the depth
of its argument, so the fuel never runs out. -/
def encJv : Nat → Jv → String
  | 0, _ => ""
  | fuel + 1, v =>
    match v with
    | .null => "null"
    | .bool b => if b then "true" else "false"
    | .int n => toString n
    | .str s => jsonStrEnc s
    | .arr xs => "[" ++ String.intercalate "," (xs.map (encJv fuel)) ++ "]"
    | .obj fields =>
        "\x7b" ++
          String.intercalate ","
            ((sortFields fields).map (fun kv => jsonStrEnc kv.1 ++ ":" ++ encJv fuel kv.2)) ++
          "\x7d"

/-! ### `entity_lookup.py`: query normalisation, cache key, reranker. -/

/-- Compacting step of `build_elasticsearch_index.normalize_exact_text`:
alphanumerics are kept, every other run becomes one space. -/
def compactAlnumAux : Bool → List Char → List Char
  | _, [] => []
  | lastSpace, c :: rest =>
    if isAlnum c then c :: compactAlnumAux false rest
    else if lastSpace then compactAlnumAux true rest
    else ' ' :: compactAlnumAux true rest

/-- Embeds `normalize_exact_text` on the ASCII fragment (NFC and NFKD are the
identity there and no combining marks occur, so the function reduces to
casefold, strip, and non-alphanumeric-run compaction). -/
def normalizeExactText (s : String) : String :=
  let value := pyStrip (asciiCasefold s)
  pyStrip ⟨compactAlnumAux false value.data⟩

/-- Embeds `normalize_context_inputs` on the list-of-strings input shape
(`None` is `[]`, a single string is a one-element list). -/
def normalizeContextInputs (values : List String) : List String :=
  dedupFirst (((values.map pyStrip).filter (fun v => v ≠ "")).flatMap tokenize)

/-- Characters admitted by `search_logic._VALID_TYPE_LABEL_RE`. -/
def isValidTypeChar (c : Char) : Bool :=
  c.isAlphanum || c == '_' || c == '.' || c == ':' || c == '/' || c == '-'

def normalizeTypeLabelsAux : List String → List String → Except String (List String)
  | _, [] => .ok []
  | seen, raw :: rest =>
    let value := pyStrip raw
    if value = "" then normalizeTypeLabelsAux seen rest
    else if ¬ (value.data.all isValidTypeChar) then .error "invalid type label"
    else if value ∈ seen then normalizeTypeLabelsAux seen rest
    else
      match normalizeTypeLabelsAux (value :: seen) rest with
      | .ok out => .ok (value :: out)
      | .error e => .error e

/-- Embeds `search_logic.normalize_type_labels` (`None` is `[]`). -/
def normalizeTypeLabels (typeLabels : List String) : Except String (List String) :=
  normalizeTypeLabelsAux [] typeLabels

/-- The payload dict of `build_cache_key`, in source (insertion) order. -/
def buildCacheKeyPayload (mentionNorm : String) (contextTerms coarseHints fineHints : List String)
    (limit : Int) (includeTopK : Bool) : Jv :=
  .obj
    [("mention_norm", .str mentionNorm),
     ("context_terms", .arr (contextTerms.map .str)),
     ("coarse_hints", .arr (coarseHints.map .str)),
     ("fine_hints", .arr (fineHints.map .str)),
     ("limit", .int limit),
     ("include_top_k", .bool includeTopK)]

/-- Embeds `entity_lookup.build_cache_key` (fuel 3 covers the fixed payload
depth: object, then array, then string). -/
def buildCacheKey (mentionNorm : String) (contextTerms coarseHints fineHints : List String)
    (limit : Int) (includeTopK : Bool) : String :=
  sha256Hex (encJv 3 (buildCacheKeyPayload mentionNorm contextTerms coarseHints fineHints
    limit includeTopK))

/-- The cache key as the SPEC describes it (a seventh `crosslink_terms` field),
written only to be compared against `buildCacheKey` from the source. -/
def buildCacheKeySpec (mentionNorm : String)
    (contextTerms crosslinkTerms coarseHints fineHints : List String)
    (limit : Int) (includeTopK : Bool) : String :=
  sha256Hex (encJv 3 (.obj
    [("mention_norm", .str mentionNorm),
     ("context_terms", .arr (contextTerms.map .str)),
     ("crosslink_terms", .arr (crosslinkTerms.map .str)),
     ("coarse_hints", .arr (coarseHints.map .str)),
     ("fine_hints", .arr (fineHints.map .str)),
     ("limit", .int limit),
     ("include_top_k", .bool includeTopK)]))

/-- Embeds `LookupWeights` (floats as exact rationals). -/
structure LookupWeights where
  name : ℚ := 62 / 100
  context : ℚ := 23 / 100
  type : ℚ := 10 / 100
  prior : ℚ := 5 / 100
deriving DecidableEq

/-- A candidate as produced by `_extract_es_hits` (every field present and
well-typed, which that decoder guarantees). -/
structure Candidate where
  qid : String
  label : String
  labels : List String
  aliases : List String
  contextString : String
  coarseType : String
  fineType : String
  popularity : ℚ
  prior : ℚ
  score : ℚ
deriving DecidableEq, Inhabited

/-- Embeds `_normalize_score_range`. -/
def normalizeScoreRange (values : List ℚ) : List ℚ :=
  match values with
  | [] => []
  | v :: vs =>
    let maxV := vs.foldl max v
    let minV := vs.foldl min v
    if maxV ≤ minV then values.map (fun _ => if 0 < maxV then (1 : ℚ) else 0)
    else values.map (fun value => (value - minV) / (maxV - minV))

/-- Embeds `_context_score` (second argument plays the `set` role). -/
def contextScoreOf (contextString : String) (contextTermSet : List String) : ℚ :=
  if contextTermSet = [] then 0
  else
    let docTerms := dedupFirst (tokenize contextString)
    if docTerms = [] then 0
    else ((docTerms.filter (fun t => t ∈ contextTermSet)).length : ℚ) /
      max 1 (contextTermSet.length : ℚ)

/-- Embeds `_type_score`. -/
def typeScoreOf (coarseType fineType : String) (coarseHintSet fineHintSet : List String) : ℚ :=
  if fineHintSet ≠ [] ∧ fineType ∈ fineHintSet then 1
  else if coarseHintSet ≠ [] ∧ coarseType ∈ coarseHintSet then 1 / 2
  else 0

/-- Embeds `_dedupe_candidates` (first occurrence per qid wins). -/
def dedupeCandidatesAux : List String → List Candidate → List Candidate
  | _, [] => []
  | seen, c :: rest =>
    if c.qid ∈ seen then dedupeCandidatesAux seen rest
    else c :: dedupeCandidatesAux (c.qid :: seen) rest

def dedupeCandidates (candidates : List Candidate) : List Candidate :=
  dedupeCandidatesAux [] candidates

/-- A scored candidate: the input dict extended with the reranker fields. -/
structure Scored extends Candidate where
  nameScore : ℚ
  contextScore : ℚ
  typeScore : ℚ
  priorScore : ℚ
  exactNameMatch : Bool
  finalScore : ℚ
deriving DecidableEq, Inhabited

/-- Per-candidate scoring step of `rerank_candidates` (the loop body). -/
def scoreCandidate (weights : LookupWeights) (mentionNorm : String)
    (contextTermSet coarseHintSet fineHintSet : List String) (exactMode : Bool)
    (candidate : Candidate) (nameScore0 : ℚ) : Scored :=
  let ctx := contextScoreOf candidate.contextString contextTermSet
  let ts := typeScoreOf candidate.coarseType candidate.fineType coarseHintSet fineHintSet
  let priorValue := candidate.prior
  let exact := (normalizeExactText candidate.label == mentionNorm) ||
    (candidate.aliases.map normalizeExactText).contains mentionNorm
  let nameScore := if exactMode && exact then 1 else nameScore0
  let final := weights.name * nameScore + weights.context * ctx + weights.type * ts +
    weights.prior * priorValue + (if exactMode && exact then 5 / 100 else 0)
  { candidate with
    nameScore := nameScore
    contextScore := ctx
    typeScore := ts
    priorScore := priorValue
    exactNameMatch := exact
    finalScore := final }

/-- The `1 if exact else 0` component of the sort keys. -/
def scoredExactNum (s : Scored) : ℚ := if s.exactNameMatch then 1 else 0

/-- Order of the first `scored.sort(key=(final, exact, prior, qid), reverse=True)`
call: stable descending on the tuple, i.e. ascending on its negation with the
qid compared descending. -/
def rerankGeA : Scored → Scored → Prop :=
  lexComp (fun s => -s.finalScore)
    (lexComp (fun s => -scoredExactNum s)
      (lexComp (fun s => -s.priorScore)
        (fun a b => pyStrLe b.qid a.qid)))

/-- Order of the second stable sort, on key
`(-final_score, -exact, -prior_score, qid)` ascending. -/
def rerankLeB : Scored → Scored → Prop :=
  lexComp (fun s => -s.finalScore)
    (lexComp (fun s => -scoredExactNum s)
      (lexComp (fun s => -s.priorScore)
        (fun a b => pyStrLe a.qid b.qid)))

instance : DecidableRel rerankGeA := fun a b => by unfold rerankGeA; infer_instance

instance : DecidableRel rerankLeB := fun a b => by unfold rerankLeB; infer_instance

/-- Embeds `rerank_candidates`.  Python's stable `list.sort` is embedded as
`List.insertionSort`, which is stable with identical comparison semantics. -/
def rerankCandidates (candidates : List Candidate) (mentionNorm : String)
    (contextTerms coarseHints fineHints : List String) (weights : LookupWeights)
    (exactMode : Bool) (limit : ℕ) : List Scored :=
  let deduped := dedupeCandidates candidates
  if deduped = [] then []
  else
    let rawScores := deduped.map (fun c => c.score)
    let normalizedNameScores := normalizeScoreRange rawScores
    let contextTermSet := dedupFirst contextTerms
    let coarseHintSet := dedupFirst coarseHints
    let fineHintSet := dedupFirst fineHints
    let scored := (deduped.zip normalizedNameScores).map
      (fun p => scoreCandidate weights mentionNorm contextTermSet coarseHintSet fineHintSet
        exactMode p.1 p.2)
    let sortedOnce := List.insertionSort rerankGeA scored
    let sortedTwice := List.insertionSort rerankLeB sortedOnce
    sortedTwice.take limit

/-! ### `EntityLookupService.lookup`.  The Elasticsearch index is external and
is modelled as a pair of deterministic search oracles (a fixed catalog yields a
fixed oracle); the Postgres query-cache table is modelled as a finite map from
cache key to stored response. -/

structure SearchBackend where
  exactSearch : String → List String → List String → ℕ → List Candidate
  fuzzySearch : String → List String → List String → List String → ℕ → List Candidate

/-- The lookup response dict (`top_k` present only when `include_top_k`). -/
structure Response where
  mention : String
  mentionNorm : String
  mentionContextTerms : List String
  coarseHints : List String
  fineHints : List String
  strategy : String
  returned : ℕ
  top1 : Option Scored
  cacheHit : Bool
  topK : Option (List Scored)
deriving DecidableEq, Inhabited

def QueryCache : Type := String → Option Response

instance : Inhabited QueryCache := ⟨fun _ => none⟩

/-- Embeds `PostgresStore.get_query_cache` on the modelled cache table. -/
def getQueryCache (cache : QueryCache) (key : String) : Option Response := cache key

/-- Embeds `PostgresStore.put_query_cache` (upsert by key). -/
def putQueryCache (cache : QueryCache) (key : String) (result : Response) : QueryCache :=
  fun k => if k = key then some result else cache k

/-- The cache-miss tail of `lookup` (lines computing `exact_hits` through the
response dict), shared by both `use_cache` branches. -/
def freshResponse (es : SearchBackend) (mentionValue mentionNorm : String)
    (contextTerms normalizedCoarse normalizedFine : List String) (limit : ℕ)
    (includeTopK : Bool) : Response :=
  let exactHits := es.exactSearch mentionNorm normalizedCoarse normalizedFine (max 10 limit)
  let strategyRanked : String × List Scored :=
    if exactHits.length = 1 then
      ("exact", rerankCandidates exactHits mentionNorm contextTerms normalizedCoarse
        normalizedFine {} true 1)
    else if 1 < exactHits.length then
      ("exact_disambiguated", rerankCandidates exactHits mentionNorm contextTerms normalizedCoarse
        normalizedFine {} true limit)
    else
      ("fuzzy",
        rerankCandidates
          (es.fuzzySearch mentionValue contextTerms normalizedCoarse normalizedFine
            (max limit 20))
          mentionNorm contextTerms normalizedCoarse normalizedFine {} false limit)
  let ranked := strategyRanked.2
  { mention := mentionValue
    mentionNorm := mentionNorm
    mentionContextTerms := contextTerms
    coarseHints := normalizedCoarse
    fineHints := normalizedFine
    strategy := strategyRanked.1
    returned := ranked.length
    top1 := ranked.head?
    cacheHit := false
    topK := if includeTopK then some ranked else none }

/-- Embeds `EntityLookupService.lookup` (`DEFAULT_FUZZY_TOPK = 20`). -/
def lookup (es : SearchBackend) (cache : QueryCache) (mention : String)
    (mentionContext : List String) (coarseHints fineHints : List String) (topK : ℕ)
    (includeTopK useCache : Bool) : Except String (Response × QueryCache) :=
  let mentionValue := pyStrip mention
  if mentionValue = "" then .error "mention must be non-empty"
  else
    let mentionNorm := normalizeExactText mentionValue
    if mentionNorm = "" then .error "mention must contain at least one alphanumeric character"
    else
      match normalizeTypeLabels coarseHints, normalizeTypeLabels fineHints with
      | .error e, _ => .error e
      | .ok _, .error e => .error e
      | .ok normalizedCoarse, .ok normalizedFine =>
        let contextTerms := normalizeContextInputs mentionContext
        let limit := max 1 (min 100 topK)
        let cacheKey := buildCacheKey mentionNorm contextTerms normalizedCoarse normalizedFine
          (limit : Int) includeTopK
        let cachedStep : Option Response :=
          if useCache then getQueryCache cache cacheKey else none
        match cachedStep with
        | some cached => .ok ({ cached with cacheHit := true }, cache)
        | none =>
          let response := freshResponse es mentionValue mentionNorm contextTerms
            normalizedCoarse normalizedFine limit includeTopK
          let cacheOut := if useCache then putQueryCache cache cacheKey response else cache
          .ok (response, cacheOut)

/-! ### The popularity-to-prior transform (`build_elasticsearch_index.popularity_to_prior`
and `postgres_store._popularity_to_prior_local`), embedded over `ℝ`
(`math.log1p x = log (1 + x)`). -/

noncomputable def popularityToPrior (popularity : ℝ) : ℝ :=
  1 - Real.exp (-(Real.log (1 + max 0 popularity)) / 6)

noncomputable def popularityToPriorLocal (popularity : ℝ) : ℝ :=
  1 - Real.exp (-(Real.log (1 + max 0 popularity)) / 6)

/-! ### `postgres_store.py`: search-column construction and the store model.
Language-keyed maps are Python dicts and are embedded as association lists in
insertion order with unique keys. -/

/-- Language iteration order used by `_flatten_labels_map` / `_flatten_aliases_map`:
`en` first if present, then the remaining languages sorted. -/
def orderedLangsOf (keys : List String) : List String :=
  if "en" ∈ keys then
    "en" :: List.insertionSort (fun a b => pyStrLe a b) (keys.filter (fun k => k ≠ "en"))
  else List.insertionSort (fun a b => pyStrLe a b) keys

def flattenLabelsAux (labels : List (String × String)) :
    List String → List String → List String
  | _, [] => []
  | seen, lang :: rest =>
    match labels.lookup lang with
    | none => flattenLabelsAux labels seen rest
    | some raw =>
      let value := normalizeText raw
      if value = "" ∨ value ∈ seen then flattenLabelsAux labels seen rest
      else value :: flattenLabelsAux labels (value :: seen) rest

/-- Embeds `_flatten_labels_map`. -/
def flattenLabelsMap (labels : List (String × String)) : List String :=
  flattenLabelsAux labels [] (orderedLangsOf (labels.map Prod.fst))

/-- One language worth of `_flatten_aliases_map`: normalise, drop empties and
already-seen values; returns the kept values and the updated seen set. -/
def dedupNormAppend : List String → List String → List String × List String
  | seen, [] => ([], seen)
  | seen, v :: vs =>
    let aliasValue := normalizeText v
    if aliasValue = "" ∨ aliasValue ∈ seen then dedupNormAppend seen vs
    else
      let out := dedupNormAppend (aliasValue :: seen) vs
      (aliasValue :: out.1, out.2)

def flattenAliasesAux (aliases : List (String × List String)) :
    List String → List String → List String
  | _, [] => []
  | seen, lang :: rest =>
    let step := dedupNormAppend seen ((aliases.lookup lang).getD [])
    step.1 ++ flattenAliasesAux aliases step.2 rest

/-- Embeds `_flatten_aliases_map`. -/
def flattenAliasesMap (aliases : List (String × List String)) : List String :=
  flattenAliasesAux aliases [] (orderedLangsOf (aliases.map Prod.fst))

/-- The `aliases` column computed by `_entity_search_columns`: secondary labels
(primary label filtered out) followed by flattened aliases. -/
def lookupAliasesColumns (label : String) (labels : List (String × String))
    (aliases : List (String × List String)) : List String :=
  let labelsFlatAll := flattenLabelsMap labels
  let primaryLabelNormalized := normalizeText label
  let labelsFlat := labelsFlatAll.filter
    (fun v => v ≠ "" ∧ (primaryLabelNormalized = "" ∨ v ≠ primaryLabelNormalized))
  let aliasesFlat := flattenAliasesMap aliases
  labelsFlat ++ aliasesFlat

/-- The `context_search_text` column of `_entity_search_columns`. -/
def contextSearchTextColumn (contextString : String) : String :=
  let cleanContext := if contextString ≠ "" then normalizeText contextString else ""
  cleanContext.take 256

/-- The three store tables read by pass 2, as finite maps. -/
structure StoreModel where
  entities : String → Option String
  sampleCache : String → Option Jv
  contextInputs : String → Option (List String)

/-- Embeds `_extract_sample_entity_label`: first non-empty `en` label wins
outright, otherwise the lexicographically first language with a non-empty
normalised label. -/
def sampleLabelLoop : List (String × Jv) → List (String × String) → Option String
  | [], preferred =>
    match (List.insertionSort (fun a b => pyStrLe a.1 b.1) preferred).head? with
    | some kv => some kv.2
    | none => none
  | (language, payload) :: rest, preferred =>
    match (payload.getField "value").bind Jv.asStr with
    | none => sampleLabelLoop rest preferred
    | some rawValue =>
      let normalized := normalizeText rawValue
      if normalized = "" then sampleLabelLoop rest preferred
      else if language = "en" then some normalized
      else sampleLabelLoop rest (preferred ++ [(language, normalized)])

def extractSampleEntityLabel (rawEntityJson : Jv) : Option String :=
  match (rawEntityJson.getField "labels").bind Jv.asObj with
  | none => none
  | some rawLabels => sampleLabelLoop rawLabels []

/-- Per-qid semantics of `resolve_labels`: the entities row (stripped,
non-empty) with fallback to the sample-entity cache. -/
def sampleCacheLabel (store : StoreModel) (qid : String) : Option String :=
  (store.sampleCache qid).bind extractSampleEntityLabel

def resolveOneLabel (store : StoreModel) (qid : String) : Option String :=
  match store.entities qid with
  | some label => if pyStrip label = "" then sampleCacheLabel store qid else some (pyStrip label)
  | none => sampleCacheLabel store qid

/-- Embeds `resolve_labels` as the map it builds: defined exactly on the
requested qids. -/
def resolveLabelsMap (store : StoreModel) (qids : List String) : String → Option String :=
  fun q => if q ∈ qids then resolveOneLabel store q else none

/-- Embeds `load_context_inputs` (rows for the requested qids, sorted by qid). -/
def loadContextInputs (store : StoreModel) (qids : List String) :
    List (String × List String) :=
  List.insertionSort (fun a b => pyStrLe a.1 b.1)
    ((dedupFirst qids).filterMap (fun q => (store.contextInputs q).map (fun rel => (q, rel))))

/-- Embeds `_build_context_string_for_qids` up to the store write: the
`(qid, context_string)` update rows it passes to `update_context_strings`. -/
def buildContextUpdates (store : StoreModel) (qids : List String) :
    List (String × String) :=
  let batch := loadContextInputs store qids
  let relatedIds := dedupFirst (batch.flatMap (fun p => p.2))
  let labelMap := resolveLabelsMap store relatedIds
  batch.map (fun p =>
    let contextTokens := List.insertionSort (fun a b => pyStrLe a b)
      (dedupFirst
        (((p.2.filterMap (fun o => (labelMap o).map pyStrip)).filter (fun s => s ≠ ""))))
    (p.1, String.intercalate "; " contextTokens))

/-- Per-entity context string: the batch-level computation restricted to one
row (proved equal to what `buildContextUpdates` writes). -/
def contextStringFor (store : StoreModel) (relationObjectQids : List String) : String :=
  String.intercalate "; "
    (List.insertionSort (fun a b => pyStrLe a b)
      (dedupFirst
        ((relationObjectQids.filterMap
          (fun o => (resolveOneLabel store o).map pyStrip)).filter (fun s => s ≠ ""))))

/-! ### `common.py`: multilingual payload extraction and language selection. -/

/-- Embeds Python `str.startswith` at the character level. -/
def strStartsWith (s p : String) : Bool := p.data.isPrefixOf s.data

def isSupportedEntityId (s : String) : Bool := strStartsWith s "Q" || strStartsWith s "P"

/-- Embeds `common.extract_value_map` (normalised, empties dropped, key-sorted). -/
def extractValueMap (rawValueMap : Jv) : List (String × String) :=
  match rawValueMap.asObj with
  | none => []
  | some fields =>
    List.insertionSort (fun a b => pyStrLe a.1 b.1)
      (fields.filterMap (fun kv =>
        match kv.2.asObj with
        | none => none
        | some _ =>
          match (kv.2.getField "value").bind Jv.asStr with
          | none => none
          | some value =>
            let normalized := normalizeText value
            if normalized = "" then none else some (kv.1, normalized)))

/-- Inner loop of `common.extract_alias_map`: per-language duplicate-free
normalised alias values. -/
def dedupAliasPayloads : List String → List Jv → List String
  | _, [] => []
  | seen, payload :: rest =>
    match (payload.getField "value").bind Jv.asStr with
    | none => dedupAliasPayloads seen rest
    | some aliasValue =>
      let normalizedAlias := normalizeText aliasValue
      if normalizedAlias = "" ∨ normalizedAlias ∈ seen then dedupAliasPayloads seen rest
      else normalizedAlias :: dedupAliasPayloads (normalizedAlias :: seen) rest

/-- Embeds `common.extract_alias_map`. -/
def extractAliasMap (rawAliasMap : Jv) : List (String × List String) :=
  match rawAliasMap.asObj with
  | none => []
  | some fields =>
    List.insertionSort (fun a b => pyStrLe a.1 b.1)
      (fields.filterMap (fun kv =>
        match kv.2.asList with
        | none => none
        | some payloads =>
          let dedupedAliases := dedupAliasPayloads [] payloads
          if dedupedAliases = [] then none else some (kv.1, dedupedAliases)))

structure MultilingualPayload where
  labels : List (String × String)
  aliases : List (String × List String)
  descriptions : List (String × String)

/-- Embeds `common.extract_multilingual_payload`. -/
def extractMultilingualPayload (entity : Jv) : MultilingualPayload :=
  { labels := extractValueMap ((entity.getField "labels").getD .null)
    aliases := extractAliasMap ((entity.getField "aliases").getD .null)
    descriptions := extractValueMap ((entity.getField "descriptions").getD .null) }

def firstNonEmptyTextAux (valueMap : List (String × String)) : List String → Option (String × String)
  | [] => none
  | lang :: rest =>
    match valueMap.lookup lang with
    | none => firstNonEmptyTextAux valueMap rest
    | some v =>
      let value := normalizeText v
      if value = "" then firstNonEmptyTextAux valueMap rest else some (lang, value)

/-- Embeds `common._first_non_empty_text`. -/
def firstNonEmptyText (valueMap : List (String × String)) : Option (String × String) :=
  firstNonEmptyTextAux valueMap
    (List.insertionSort (fun a b => pyStrLe a b) (valueMap.map Prod.fst))

/-- Embeds `common.select_text_map_languages`. -/
def selectTextMapLanguages (valueMap : List (String × String))
    (preferredLanguages : List String) (fallbackToAny : Bool) : List (String × String) :=
  if valueMap = [] then []
  else
    let selected := preferredLanguages.filterMap (fun language =>
      (valueMap.lookup language).bind (fun value =>
        let normalized := normalizeText value
        if normalized = "" then none else some (language, normalized)))
    if selected ≠ [] then selected
    else if ¬ fallbackToAny then []
    else
      match firstNonEmptyText valueMap with
      | none => []
      | some (language, value) => [(language, value)]

/-- Per-language compaction of `common.select_alias_map_languages` (dedup,
normalise, cap at the per-language maximum). -/
def compactAliasesAux : ℕ → List String → List String → List String
  | _, _, [] => []
  | 0, _, _ => []
  | remaining + 1, seen, rawAlias :: rest =>
    let candidate := normalizeText rawAlias
    if candidate = "" ∨ candidate ∈ seen then compactAliasesAux (remaining + 1) seen rest
    else candidate :: compactAliasesAux remaining (candidate :: seen) rest

def compactAliases (maxAliasesPerLanguage : ℕ) (aliases : List String) : List String :=
  compactAliasesAux maxAliasesPerLanguage [] aliases

/-- Embeds `common.select_alias_map_languages`. -/
def selectAliasMapLanguages (aliasMap : List (String × List String))
    (preferredLanguages : List String) (maxAliasesPerLanguage : ℕ)
    (fallbackToAny : Bool) : List (String × List String) :=
  if aliasMap = [] ∨ maxAliasesPerLanguage = 0 then []
  else
    let selected := preferredLanguages.filterMap (fun language =>
      (aliasMap.lookup language).bind (fun aliases =>
        let compacted := compactAliases maxAliasesPerLanguage aliases
        if compacted = [] then none else some (language, compacted)))
    if selected ≠ [] then selected
    else if ¬ fallbackToAny then []
    else
      match (List.insertionSort (fun a b => pyStrLe a b) (aliasMap.map Prod.fst)).filterMap
          (fun language =>
            (aliasMap.lookup language).bind (fun aliases =>
              let compacted := compactAliases maxAliasesPerLanguage aliases
              if compacted = [] then none else some (language, compacted))) with
      | [] => []
      | kv :: _ => [kv]

/-! ### `build_bow_docs.extract_claim_object_ids` and
`build_postgres_entities.infer_item_category`. -/

/-- Embeds `_extract_entity_id_from_datavalue_value`. -/
def extractEntityIdFromDatavalueValue (rawValue : Jv) : Option String :=
  match rawValue.asObj with
  | none => none
  | some _ =>
    let fromId : Option String :=
      match (rawValue.getField "id").bind Jv.asStr with
      | some rawId =>
        let candidate := pyStrip rawId
        if isSupportedEntityId candidate then some candidate else none
      | none => none
    match fromId with
    | some candidate => some candidate
    | none =>
      match (rawValue.getField "numeric-id").bind Jv.asInt with
      | none => none
      | some numericId =>
        if numericId ≤ 0 then none
        else
          match rawValue.getField "entity-type" with
          | some (.str "item") => some ("Q" ++ toString numericId)
          | some (.str "property") => some ("P" ++ toString numericId)
          | _ => none

/-- Statement loop of `extract_claim_object_ids`, threading the accumulated ids
and the seen set and stopping at the limit. -/
def claimStmtsAux (limit : ℕ) : List Jv → List String → List String →
    List String × List String
  | [], acc, seen => (acc, seen)
  | stmt :: rest, acc, seen =>
    if limit ≤ acc.length then (acc, seen)
    else
      let objectId : Option String :=
        match stmt.getField "mainsnak" with
        | none => none
        | some mainsnak =>
          if ¬ (((mainsnak.getField "snaktype").map (fun j => j.isStrEq "value")).getD false)
          then none
          else
            match mainsnak.getField "datavalue" with
            | none => none
            | some datavalue =>
              extractEntityIdFromDatavalueValue ((datavalue.getField "value").getD .null)
      match objectId with
      | none => claimStmtsAux limit rest acc seen
      | some oid =>
        if oid ∈ seen then claimStmtsAux limit rest acc seen
        else claimStmtsAux limit rest (acc ++ [oid]) (oid :: seen)

/-- Embeds `extract_claim_object_ids`. -/
def extractClaimObjectIds (entity : Jv) (limit : ℕ) : List String :=
  if limit = 0 then []
  else
    match (entity.getField "claims").bind Jv.asObj with
    | none => []
    | some claims =>
      (claims.foldl (fun (st : List String × List String) kv =>
        match kv.2 with
        | .arr statements => claimStmtsAux limit statements st.1 st.2
        | _ => st) ([], [])).1

/-- Embeds `build_postgres_entities._claim_object_ids_for_property`. -/
def claimObjectIdsForProperty (entity : Jv) (propertyId : String) (limit : ℕ) : List String :=
  match (entity.getField "claims").bind Jv.asObj with
  | none => []
  | some claims =>
    match claims.lookup propertyId with
    | none => []
    | some selected =>
      extractClaimObjectIds (.obj [("claims", .obj [(propertyId, selected)])]) limit

def DISAMBIGUATION_INSTANCE_OF_QIDS : List String := ["Q4167410", "Q22808320"]

def CLASSLIKE_INSTANCE_OF_QIDS : List String := ["Q16889133", "Q24017414"]

def entityTypeIs (entity : Jv) (s : String) : Bool :=
  match entity.getField "type" with
  | some j => j.isStrEq s
  | none => false

/-- Embeds `build_postgres_entities.infer_item_category`. -/
def inferItemCategory (entity : Jv) : String :=
  match (entity.getField "id").bind Jv.asStr with
  | none => "OTHER"
  | some entityId =>
    if entityId = "" then "OTHER"
    else if strStartsWith entityId "P" || entityTypeIs entity "property" then "PREDICATE"
    else if entityTypeIs entity "lexeme" then "LEXEME"
    else if entityTypeIs entity "form" then "FORM"
    else if entityTypeIs entity "sense" then "SENSE"
    else if entityTypeIs entity "mediainfo" then "MEDIAINFO"
    else if ¬ strStartsWith entityId "Q" then "OTHER"
    else
      match (entity.getField "claims").bind Jv.asObj with
      | none => "ENTITY"
      | some claims =>
        let p31Ids := claimObjectIdsForProperty entity "P31" 16
        if p31Ids.any (fun q => q ∈ DISAMBIGUATION_INSTANCE_OF_QIDS) then "DISAMBIGUATION"
        else if (match claims.lookup "P279" with
                 | some (.arr statements) => statements.any (fun s => s.asObj.isSome)
                 | _ => false) then "TYPE"
        else if p31Ids.any (fun q => q ∈ CLASSLIKE_INSTANCE_OF_QIDS) then "TYPE"
        else "ENTITY"

/-! ### `ner_typing.py`: the lexical NER typer. -/

structure FineTypeRule where
  coarse : String
  fine : String
  tokenClues : List String
  phraseClues : List String := []
  minScore : ℕ := 1
deriving DecidableEq

def fineTypeRules : List FineTypeRule :=
  [{ coarse := "PERSON", fine := "HUMAN",
     tokenClues := ["person", "actor", "actress", "singer", "musician", "politician", "writer",
       "author", "athlete", "footballer", "scientist", "artist", "director", "poet",
       "philosopher", "journalist", "engineer", "doctor", "composer", "president", "founder",
       "professor"],
     phraseClues := ["human being", "prime minister", "head of state", "president of"] },
   { coarse := "PERSON", fine := "FICTIONAL_CHARACTER",
     tokenClues := ["fictional", "character", "superhero", "villain", "protagonist"],
     phraseClues := ["fictional character"], minScore := 2 },
   { coarse := "ORGANIZATION", fine := "COMPANY",
     tokenClues := ["company", "corporation", "business", "manufacturer", "enterprise",
       "startup", "firm", "multinational"] },
   { coarse := "ORGANIZATION", fine := "NONPROFIT_ORG",
     tokenClues := ["foundation", "charitable", "nonprofit", "non-profit", "ngo"],
     phraseClues := ["charitable organization", "non-profit organization"] },
   { coarse := "ORGANIZATION", fine := "GOVERNMENT_ORG",
     tokenClues := ["government", "ministry", "department", "agency", "parliament", "senate",
       "council", "municipality"] },
   { coarse := "ORGANIZATION", fine := "EDUCATIONAL_ORG",
     tokenClues := ["university", "college", "school", "institute", "academy"] },
   { coarse := "ORGANIZATION", fine := "SPORTS_TEAM",
     tokenClues := ["team", "fc", "athletic", "basketball", "baseball", "soccer", "hockey"],
     phraseClues := ["football club"] },
   { coarse := "LOCATION", fine := "COUNTRY",
     tokenClues := ["country", "nation", "republic", "kingdom", "sovereign"],
     phraseClues := ["sovereign state", "independent state", "country in"] },
   { coarse := "LOCATION", fine := "CITY",
     tokenClues := ["city", "town", "municipality", "capital", "village", "metropolis",
       "megacity", "commune", "arrondissement", "borough", "suburb", "settlement", "cidade",
       "ciudad", "stadt", "comune", "municipio"],
     phraseClues := ["city in", "town in", "village in", "capital of", "county seat",
       "census-designated place", "global city", "national capital", "primate city",
       "largest city"] },
   { coarse := "LOCATION", fine := "REGION",
     tokenClues := ["region", "province", "district", "county", "territory", "continent"],
     phraseClues := ["state of the united states", "state in the united states",
       "federal state", "autonomous region"] },
   { coarse := "LOCATION", fine := "LANDMARK",
     tokenClues := ["ocean", "sea", "gulf", "bay", "strait", "mountain", "river", "lake",
       "island", "airport", "station", "bridge", "building", "monument", "desert", "valley",
       "volcano"] },
   { coarse := "LOCATION", fine := "CELESTIAL_BODY",
     tokenClues := ["planet", "moon", "star", "galaxy", "asteroid", "comet", "universe"],
     phraseClues := ["solar system", "celestial body"] },
   { coarse := "EVENT", fine := "CONFLICT",
     tokenClues := ["war", "battle", "revolution", "uprising", "campaign"],
     phraseClues := ["armed conflict", "military conflict", "civil war"], minScore := 2 },
   { coarse := "EVENT", fine := "SPORT_EVENT",
     tokenClues := ["tournament", "championship", "olympics", "cup", "season"],
     minScore := 2 },
   { coarse := "EVENT", fine := "EVENT_GENERIC",
     tokenClues := ["event", "festival", "conference", "election", "summit"], minScore := 2 },
   { coarse := "WORK", fine := "FILM",
     tokenClues := ["film", "movie", "documentary", "cinema"] },
   { coarse := "WORK", fine := "BOOK",
     tokenClues := ["book", "novel", "poem", "literature"] },
   { coarse := "WORK", fine := "MUSIC_WORK",
     tokenClues := ["song", "album", "opera", "symphony", "anthem"] },
   { coarse := "WORK", fine := "SOFTWARE",
     tokenClues := ["software", "application", "app", "program", "library", "framework"],
     phraseClues := ["operating system"] },
   { coarse := "WORK", fine := "INTERNET_MEME",
     tokenClues := ["meme"], phraseClues := ["internet meme"] },
   { coarse := "PRODUCT", fine := "DEVICE",
     tokenClues := ["device", "smartphone", "phone", "laptop", "hardware", "vehicle",
       "aircraft", "airliner", "automobile", "printer", "train"] },
   { coarse := "PRODUCT", fine := "MEDICATION",
     tokenClues := ["drug", "medicine", "vaccine", "antibiotic", "treatment"] },
   { coarse := "PRODUCT", fine := "FOOD_BEVERAGE",
     tokenClues := ["beverage", "drink", "food", "dish", "cuisine", "snack", "meal",
       "alcoholic", "non-alcoholic", "nonalcoholic"],
     phraseClues := ["alcoholic beverage", "non-alcoholic beverage"] },
   { coarse := "PRODUCT", fine := "PRODUCT_GENERIC",
     tokenClues := ["product", "brand", "model"] },
   { coarse := "CONCEPT", fine := "LANGUAGE",
     tokenClues := ["language", "dialect"] },
   { coarse := "CONCEPT", fine := "LAW",
     tokenClues := ["law", "statute", "treaty", "regulation", "directive", "constitution",
       "code"],
     phraseClues := ["law of", "act of", "treaty of", "regulation of"], minScore := 2 },
   { coarse := "CONCEPT", fine := "SCIENTIFIC_THEORY",
     tokenClues := ["theory", "principle", "equation", "theorem", "hypothesis"] },
   { coarse := "CONCEPT", fine := "BIOLOGICAL_TAXON",
     tokenClues := ["species", "genus", "taxon", "subspecies", "clade", "mammal"] },
   { coarse := "CONCEPT", fine := "ANATOMY",
     tokenClues := ["organ", "anatomy", "anatomical", "muscle", "bone", "artery", "vein"],
     phraseClues := ["part of the body", "part of body", "sexual organ",
       "anatomical structure"], minScore := 2 }]

/-- Embeds `_has_english_text`. -/
def hasEnglishText (labels : List (String × String)) (aliases : List (String × List String))
    (descriptions : List (String × String)) : Bool :=
  if (descriptions.lookup "en").isSome then true
  else if (labels.lookup "en").isSome then true
  else
    match aliases.lookup "en" with
    | none => false
    | some aliasesEn => aliasesEn.any (fun v => normalizeText v ≠ "")

def sortedKeys {α : Type} (m : List (String × α)) : List String :=
  List.insertionSort (fun a b => pyStrLe a b) (m.map Prod.fst)

/-- Label/description passes of `_iter_text_values` (shared seen set). -/
def textMapValuesAux (m : List (String × String)) :
    List String → List String → List String × List String
  | seen, [] => ([], seen)
  | seen, lang :: rest =>
    match m.lookup lang with
    | none => textMapValuesAux m seen rest
    | some raw =>
      let candidate := normalizeText raw
      if candidate = "" ∨ candidate ∈ seen then textMapValuesAux m seen rest
      else
        let out := textMapValuesAux m (candidate :: seen) rest
        (candidate :: out.1, out.2)

/-- Alias pass of `_iter_text_values`. -/
def aliasTextValuesAux (m : List (String × List String)) :
    List String → List String → List String × List String
  | seen, [] => ([], seen)
  | seen, lang :: rest =>
    match m.lookup lang with
    | none => aliasTextValuesAux m seen rest
    | some aliases =>
      let step := dedupNormAppend seen aliases
      let out := aliasTextValuesAux m step.2 rest
      (step.1 ++ out.1, out.2)

/-- Embeds `_iter_text_values`. -/
def iterTextValues (labels : List (String × String)) (aliases : List (String × List String))
    (descriptions : List (String × String)) : List String :=
  let useEnglishOnly := hasEnglishText labels aliases descriptions
  let descLangs := if useEnglishOnly then ["en"] else sortedKeys descriptions
  let labelLangs := if useEnglishOnly then ["en"] else sortedKeys labels
  let aliasLangs := if useEnglishOnly then ["en"] else sortedKeys aliases
  let d := textMapValuesAux descriptions [] descLangs
  let l := textMapValuesAux labels d.2 labelLangs
  let a := aliasTextValuesAux aliases l.2 aliasLangs
  d.1 ++ l.1 ++ a.1

/-- Rule score in `infer_ner_types`: one per token clue present in the token
set, two per phrase clue occurring as a substring. -/
def ruleScore (rule : FineTypeRule) (tokenSet : List String) (normalizedText : String) : ℕ :=
  (rule.tokenClues.filter (fun t => t ∈ tokenSet)).length +
    2 * (rule.phraseClues.filter
      (fun p => p ≠ "" && decide (p.data <:+: normalizedText.data))).length

/-- Sort key `(-score, fine)` for passing rules. -/
def ruleSortLe : (ℕ × FineTypeRule) → (ℕ × FineTypeRule) → Prop :=
  lexComp (fun sr => -(sr.1 : ℤ)) (fun a b => pyStrLe a.2.fine b.2.fine)

instance : DecidableRel ruleSortLe := fun a b => by unfold ruleSortLe; infer_instance

/-- Dict accumulation `coarse_scores[rule.coarse] += score` (insertion order). -/
def upsertAdd : List (String × ℕ) → String → ℕ → List (String × ℕ)
  | [], k, v => [(k, v)]
  | (k0, v0) :: rest, k, v =>
    if k0 = k then (k0, v0 + v) :: rest else (k0, v0) :: upsertAdd rest k v

/-- Sort order `(-summed score, label)` for the coarse output dict items. -/
def coarseSortLe : (String × ℕ) → (String × ℕ) → Prop :=
  lexComp (fun p => -(p.2 : ℤ)) (fun a b => pyStrLe a.1 b.1)

instance : DecidableRel coarseSortLe := fun a b => by unfold coarseSortLe; infer_instance

/-- The `normalized_text` of `infer_ner_types` (casefolded values joined with a
newline). -/
def nerNormalizedText (labels : List (String × String)) (aliases : List (String × List String))
    (descriptions : List (String × String)) : String :=
  String.intercalate "\n" ((iterTextValues labels aliases descriptions).map asciiCasefold)

def nerTokenSet (labels : List (String × String)) (aliases : List (String × List String))
    (descriptions : List (String × String)) : List String :=
  dedupFirst (tokenize (nerNormalizedText labels aliases descriptions))

/-- Rules passing `score >= rule.min_score`, with their scores. -/
def nerScoredRules (labels : List (String × String)) (aliases : List (String × List String))
    (descriptions : List (String × String)) : List (ℕ × FineTypeRule) :=
  fineTypeRules.filterMap (fun rule =>
    let score := ruleScore rule (nerTokenSet labels aliases descriptions)
      (nerNormalizedText labels aliases descriptions)
    if rule.minScore ≤ score then some (score, rule) else none)

def nerSortedRules (labels : List (String × String)) (aliases : List (String × List String))
    (descriptions : List (String × String)) : List (ℕ × FineTypeRule) :=
  List.insertionSort ruleSortLe (nerScoredRules labels aliases descriptions)

def nerTopScore (labels : List (String × String)) (aliases : List (String × List String))
    (descriptions : List (String × String)) : ℕ :=
  (((nerSortedRules labels aliases descriptions).head?).map Prod.fst).getD 0

/-- The rules the typer keeps: top of the sorted list plus a second only when
tied on score. -/
def nerSelected (labels : List (String × String)) (aliases : List (String × List String))
    (descriptions : List (String × String)) : List (ℕ × FineTypeRule) :=
  ((nerSortedRules labels aliases descriptions).filter
    (fun sr => sr.1 = nerTopScore labels aliases descriptions)).take 2

def nerCoarseScores (labels : List (String × String)) (aliases : List (String × List String))
    (descriptions : List (String × String)) : List (String × ℕ) :=
  (nerSelected labels aliases descriptions).foldl
    (fun m sr => upsertAdd m sr.2.coarse sr.1) []

def nerFineTypes (labels : List (String × String)) (aliases : List (String × List String))
    (descriptions : List (String × String)) : List String :=
  dedupFirst ((nerSelected labels aliases descriptions).map (fun sr => sr.2.fine))

def nerSortedCoarse (labels : List (String × String)) (aliases : List (String × List String))
    (descriptions : List (String × String)) : List (String × ℕ) :=
  List.insertionSort coarseSortLe (nerCoarseScores labels aliases descriptions)

def nerCoarseTypes (labels : List (String × String)) (aliases : List (String × List String))
    (descriptions : List (String × String)) : List String :=
  ((nerSortedCoarse labels aliases descriptions).take 2).map Prod.fst

/-- The claim's "coarse counts": how many selected rules carry a coarse label. -/
def coarseCount (sel : List (ℕ × FineTypeRule)) (c : String) : ℕ :=
  (sel.filter (fun sr => sr.2.coarse = c)).length

/-- The claim's coarse output order: by `(−count, label ascending)`. -/
def coarseCountLe (sel : List (ℕ × FineTypeRule)) (c1 c2 : String) : Prop :=
  coarseCount sel c2 < coarseCount sel c1 ∨
    (coarseCount sel c1 = coarseCount sel c2 ∧ pyStrLe c1 c2)

/-- Embeds `infer_ner_types` (staged through the `ner*` definitions above). -/
def inferNerTypes (entityId : String) (labels : List (String × String))
    (aliases : List (String × List String)) (descriptions : List (String × String)) :
    List String × List String × String :=
  if strStartsWith entityId "P" then (["RELATION"], ["PROPERTY"], "lexical_v1")
  else if iterTextValues labels aliases descriptions = [] then
    (["MISC"], ["ENTITY"], "lexical_v1")
  else if nerScoredRules labels aliases descriptions = [] then
    (["MISC"], ["ENTITY"], "lexical_v1")
  else
    (if nerCoarseTypes labels aliases descriptions = [] then ["MISC"]
     else nerCoarseTypes labels aliases descriptions,
     if nerFineTypes labels aliases descriptions = [] then ["ENTITY"]
     else nerFineTypes labels aliases descriptions,
     "lexical_v1")

/-! ### `build_postgres_entities.transform_entity_to_record` (pass 1). -/

def upperHexDigit (n : Nat) : Char :=
  if n < 10 then Char.ofNat (48 + n) else Char.ofNat (55 + n)

/-- Embeds `urllib.parse.quote`: percent-encodes every UTF-8 byte outside
unreserved (`ALPHA`, `DIGIT`, `_.-~`) and the given safe set. -/
def pyQuote (safe : List Char) (s : String) : String :=
  ⟨(utf8Encode s).flatMap (fun b =>
    let c := Char.ofNat b
    if (65 ≤ b ∧ b ≤ 90) ∨ (97 ≤ b ∧ b ≤ 122) ∨ (48 ≤ b ∧ b ≤ 57) ∨
        c ∈ (['_', '.', '-', '~'] : List Char) ∨ c ∈ safe
    then [c] else ['%', upperHexDigit (b / 16), upperHexDigit (b % 16)])⟩

/-- Embeds `_extract_cross_refs`. -/
def extractCrossRefs (entity : Jv) : List (String × String) :=
  match (entity.getField "sitelinks").bind Jv.asObj with
  | none => []
  | some rawSitelinks =>
    match rawSitelinks.lookup "enwiki" with
    | none => []
    | some enwikiPayload =>
      match (enwikiPayload.getField "title").bind Jv.asStr with
      | none => []
      | some enTitle =>
        if pyStrip enTitle = "" then []
        else
          let title := pyStrip enTitle
          let wikiPath := pyQuote "()'!*,._-".data (title.replace " " "_")
          [("wikipedia", "https://en.wikipedia.org/wiki/" ++ wikiPath),
           ("dbpedia", "https://dbpedia.org/resource/" ++ pyQuote ['/'] (title.replace " " "_"))]

/-- Embeds `_extract_popularity`. -/
def extractPopularity (entity : Jv) : ℚ :=
  match (entity.getField "sitelinks").bind Jv.asObj with
  | some fields => (fields.length : ℚ)
  | none => 0

def pickPrimaryLabelAux (labels : List (String × String)) : List String → String
  | [] => ""
  | lang :: rest =>
    match labels.lookup lang with
    | none => pickPrimaryLabelAux labels rest
    | some value =>
      let candidate := pyStrip value
      if candidate = "" then pickPrimaryLabelAux labels rest else candidate

/-- Embeds `_pick_primary_label`. -/
def pickPrimaryLabel (labels : List (String × String)) : String :=
  let english := (labels.lookup "en").getD ""
  if pyStrip english ≠ "" then pyStrip english
  else pickPrimaryLabelAux labels (List.insertionSort (fun a b => pyStrLe a b) (labels.map Prod.fst))

/-- Embeds `postgres_store.EntityRecord` (as assembled by pass 1). -/
structure EntityRecord where
  qid : String
  label : String
  labels : List (String × String)
  aliases : List (String × List String)
  relationObjectQids : List String
  itemCategory : String
  coarseType : String
  fineType : String
  popularity : ℚ
  crossRefs : List (String × String)
  contextString : String := ""
deriving DecidableEq

/-- Embeds `transform_entity_to_record`. -/
def transformEntityToRecord (entity : Jv) (languageAllowlist : List String)
    (maxAliasesPerLanguage : ℕ) (maxContextObjectIds : ℕ)
    (disableNerClassifier : Bool) : Option EntityRecord :=
  match (entity.getField "id").bind Jv.asStr with
  | none => none
  | some entityId =>
    if ¬ isSupportedEntityId entityId then none
    else
      let payload := extractMultilingualPayload entity
      let labels := selectTextMapLanguages payload.labels languageAllowlist true
      let aliases := selectAliasMapLanguages payload.aliases languageAllowlist
        maxAliasesPerLanguage false
      let descriptions := selectTextMapLanguages payload.descriptions languageAllowlist true
      let label := pickPrimaryLabel labels
      if label = "" then none
      else
        let typed : String × String :=
          if disableNerClassifier then ("", "")
          else
            let result := inferNerTypes entityId labels aliases descriptions
            (result.1.headD "", result.2.1.headD "")
        some
          { qid := entityId
            label := label
            labels := labels
            aliases := aliases
            relationObjectQids := extractClaimObjectIds entity maxContextObjectIds
            itemCategory := inferItemCategory entity
            coarseType := typed.1
            fineType := typed.2
            popularity := extractPopularity entity
            crossRefs := extractCrossRefs entity
            contextString := "" }

/-! ### Concrete witness data used by the theorems below. -/

/-- A 700-character label, longer than the claimed 640-character context cap. -/
def c3LongLabel : String := ⟨List.replicate 700 'a'⟩

/-- A two-row store: entity `Q2` carries the long label, and `Q1` lists `Q2`
as its only relation object. -/
def c3Store : StoreModel :=
  { entities := fun q => if q = "Q2" then some c3LongLabel else none
    sampleCache := fun _ => none
    contextInputs := fun q => if q = "Q1" then some ["Q2"] else none }

/-- A candidate row as the exact phase would return it. -/
def c8Candidate : Candidate :=
  { qid := "Q312", label := "apple", labels := [], aliases := [],
    contextString := "", coarseType := "", fineType := "",
    popularity := 1, prior := 1 / 2, score := 3 }

/-- A backend whose exact phase finds exactly one hit. -/
def c8Backend : SearchBackend :=
  { exactSearch := fun _ _ _ _ => [c8Candidate]
    fuzzySearch := fun _ _ _ _ _ => [] }

/-- A backend that never finds anything. -/
def emptyBackend : SearchBackend :=
  { exactSearch := fun _ _ _ _ => []
    fuzzySearch := fun _ _ _ _ _ => [] }

/-- The empty query-cache table. -/
def emptyQueryCache : QueryCache := fun _ => none

/-- First lookup of the cache round-trip witness (fresh, then cached). -/
def c1Res1 : Response × QueryCache :=
  (lookup emptyBackend emptyQueryCache "apple" [] [] [] 2 false true).toOption.getD
    (default, emptyQueryCache)

/-- Second lookup of the cache round-trip witness, against the updated cache. -/
def c1Res2 : Response × QueryCache :=
  (lookup emptyBackend c1Res1.2 "apple" [] [] [] 2 false true).toOption.getD
    (default, emptyQueryCache)

/-- Concrete NER-typer input (scenario S4 of the spec). -/
def c9Labels : List (String × String) := [("en", "Barack Obama")]

def c9Aliases : List (String × List String) := []

def c9Descriptions : List (String × String) :=
  [("en", "president of the United States from 2009 to 2017")]

/-! ## Helper lemmas -/

theorem dedupFirstAux_nodup (seen : List String) (xs : List String) :
    ((dedupFirstAux seen xs).Nodup) ∧ ∀ y ∈ dedupFirstAux seen xs, y ∉ seen := by
  induction xs generalizing seen with
  | nil => simp [dedupFirstAux]
  | cons x rest ih =>
    by_cases hx : x ∈ seen
    · simpa [dedupFirstAux, hx] using ih seen
    · obtain ⟨h1, h2⟩ := ih (x :: seen)
      refine ⟨?_, ?_⟩
      · simp only [dedupFirstAux, hx, if_false, List.nodup_cons]
        exact ⟨fun hmem => (h2 x hmem) (List.mem_cons_self x seen), h1⟩
      · intro y hy
        simp only [dedupFirstAux, hx, if_false, List.mem_cons] at hy
        rcases hy with rfl | hy
        · exact hx
        · intro hys
          exact h2 y hy (List.mem_cons_of_mem _ hys)

theorem dedupFirst_nodup (xs : List String) : (dedupFirst xs).Nodup :=
  (dedupFirstAux_nodup [] xs).1

theorem mem_dedupFirstAux (seen : List String) (xs : List String) (y : String) :
    y ∈ dedupFirstAux seen xs ↔ y ∈ xs ∧ y ∉ seen := by
  induction xs generalizing seen with
  | nil => simp [dedupFirstAux]
  | cons x rest ih =>
    by_cases hx : x ∈ seen
    · simp only [dedupFirstAux, hx, if_true, ih, List.mem_cons]
      constructor
      · rintro ⟨h1, h2⟩; exact ⟨Or.inr h1, h2⟩
      · rintro ⟨h1 | h1, h2⟩
        · exact absurd hx (h1 ▸ h2)
        · exact ⟨h1, h2⟩
    · simp only [dedupFirstAux, hx, if_false, List.mem_cons, ih]
      by_cases hxy : y = x
      · subst hxy; simp [hx]
      · simp [hxy]

theorem mem_dedupFirst (xs : List String) (y : String) :
    y ∈ dedupFirst xs ↔ y ∈ xs := by
  simp [dedupFirst, mem_dedupFirstAux]

theorem dedupFirstAux_length_le (seen : List String) (xs : List String) :
    (dedupFirstAux seen xs).length ≤ xs.length := by
  induction xs generalizing seen with
  | nil => simp [dedupFirstAux]
  | cons x rest ih =>
    by_cases hx : x ∈ seen
    · simp only [dedupFirstAux, hx, if_true]
      exact le_trans (ih seen) (Nat.le_succ _)
    · simp only [dedupFirstAux, hx, if_false, List.length_cons]
      exact Nat.succ_le_succ (ih _)

theorem dedupFirst_length_le (xs : List String) : (dedupFirst xs).length ≤ xs.length :=
  dedupFirstAux_length_le [] xs

theorem lookup_mem {β : Type} {l : List (String × β)} {k : String} {v : β}
    (h : l.lookup k = some v) : (k, v) ∈ l := by
  induction l with
  | nil => simp at h
  | cons kv rest ih =>
    rcases kv with ⟨k0, v0⟩
    rw [List.lookup] at h
    rcases hbeq : (k == k0) with _ | _
    · rw [hbeq] at h
      exact List.mem_cons_of_mem _ (ih h)
    · rw [hbeq] at h
      simp only [Option.some.injEq] at h
      have hk : k = k0 := eq_of_beq hbeq
      subst hk
      subst h
      exact List.mem_cons_self _ _

theorem strStartsWith_q_not_p {s : String} (h : strStartsWith s "Q" = true) :
    strStartsWith s "P" = false := by
  cases s with
  | mk data =>
    cases data with
    | nil => exact absurd h (by decide)
    | cons c cs =>
      have h1 : ('Q' == c) = true := by
        cases hqc : ('Q' == c)
        · refine absurd h ?_
          show ¬ (('Q' == c) && List.isPrefixOf [] cs) = true
          rw [hqc, Bool.false_and]
          decide
        · rfl
      have hc : c = 'Q' := (eq_of_beq h1).symm
      subst hc
      rfl

/-! ## Claim theorems -/

/-- C5: for every nonnegative popularity value, both prior transforms equal
`1 − exp(−ln(1 + popularity)/6)` exactly, and the value lies in `[0, 1)`. -/
theorem prior_formula_and_range (p : ℝ) (hp : 0 ≤ p) :
    popularityToPrior p = 1 - Real.exp (-(Real.log (1 + p)) / 6) ∧
    popularityToPriorLocal p = 1 - Real.exp (-(Real.log (1 + p)) / 6) ∧
    0 ≤ popularityToPrior p ∧ popularityToPrior p < 1 := by
  have hmax : max (0 : ℝ) p = p := max_eq_right hp
  unfold popularityToPrior popularityToPriorLocal
  rw [hmax]
  have hlog : 0 ≤ Real.log (1 + p) := Real.log_nonneg (by linarith)
  have hle : Real.exp (-(Real.log (1 + p)) / 6) ≤ 1 := Real.exp_le_one_iff.mpr (by linarith)
  have hpos : 0 < Real.exp (-(Real.log (1 + p)) / 6) := Real.exp_pos _
  exact ⟨rfl, rfl, by linarith, by linarith⟩

/-- Witness for C5 at popularity 3. -/
theorem prior_formula_and_range_witness :
    (0 : ℝ) ≤ 3 ∧
    (popularityToPrior 3 = 1 - Real.exp (-(Real.log (1 + 3)) / 6) ∧
     popularityToPriorLocal 3 = 1 - Real.exp (-(Real.log (1 + 3)) / 6) ∧
     0 ≤ popularityToPrior 3 ∧ popularityToPrior 3 < 1) :=
  ⟨by norm_num, prior_formula_and_range 3 (by norm_num)⟩

/-- C7 counterexample: the Q-item `{"id": "Q5"}` has no claims, is no
disambiguation page and not a TYPE, yet the classifier returns ENTITY rather
than the OTHER the claim requires. -/
theorem infer_item_category_no_claims_counterexample :
    inferItemCategory (Jv.obj [("id", Jv.str "Q5")]) = "ENTITY" ∧
    inferItemCategory (Jv.obj [("id", Jv.str "Q5")]) ≠ "OTHER" := by
  exact ⟨rfl, by decide⟩

/-- C7 amended: a Q-item whose entity type is none of the special types and
that has no claims mapping is classified ENTITY (never OTHER); OTHER is
reserved for missing/empty ids and unsupported id shapes. -/
theorem infer_item_category_no_claims_entity (entity : Jv) (qid : String)
    (hid : entity.getField "id" = some (Jv.str qid))
    (hq : strStartsWith qid "Q" = true)
    (hty : ∀ s ∈ (["property", "lexeme", "form", "sense", "mediainfo"] : List String),
      entityTypeIs entity s = false)
    (hnc : (entity.getField "claims").bind Jv.asObj = none) :
    inferItemCategory entity = "ENTITY" := by
  have hbind : (entity.getField "id").bind Jv.asStr = some qid := by rw [hid]; rfl
  have hqe : qid ≠ "" := by
    intro h
    rw [h] at hq
    simp [strStartsWith, List.isPrefixOf] at hq
  have hP : strStartsWith qid "P" = false := strStartsWith_q_not_p hq
  have h1 := hty "property" (by simp)
  have h2 := hty "lexeme" (by simp)
  have h3 := hty "form" (by simp)
  have h4 := hty "sense" (by simp)
  have h5 := hty "mediainfo" (by simp)
  unfold inferItemCategory
  rw [hbind]
  simp [hqe, hP, h1, h2, h3, h4, h5, hq, hnc]

/-- Witness for C7's amended theorem at the concrete entity `{"id": "Q42"}`. -/
theorem infer_item_category_no_claims_entity_witness :
    ((Jv.obj [("id", Jv.str "Q42")]).getField "id" = some (Jv.str "Q42") ∧
     strStartsWith "Q42" "Q" = true ∧
     (∀ s ∈ (["property", "lexeme", "form", "sense", "mediainfo"] : List String),
       entityTypeIs (Jv.obj [("id", Jv.str "Q42")]) s = false) ∧
     ((Jv.obj [("id", Jv.str "Q42")]).getField "claims").bind Jv.asObj = none) ∧
    inferItemCategory (Jv.obj [("id", Jv.str "Q42")]) = "ENTITY" :=
  ⟨⟨rfl, rfl, by decide, rfl⟩,
   infer_item_category_no_claims_entity (Jv.obj [("id", Jv.str "Q42")]) "Q42" rfl rfl
     (by decide) rfl⟩

theorem pickPrimaryLabelAux_empty (labels : List (String × String))
    (hall : ∀ kv ∈ labels, pyStrip kv.2 = "") (langs : List String) :
    pickPrimaryLabelAux labels langs = "" := by
  induction langs with
  | nil => rfl
  | cons lang rest ih =>
    rw [pickPrimaryLabelAux]
    cases hl : labels.lookup lang with
    | none => exact ih
    | some value =>
      have hv := hall (lang, value) (lookup_mem hl)
      simp only at hv
      simp [hv, ih]

theorem pickPrimaryLabel_empty (labels : List (String × String))
    (hall : ∀ kv ∈ labels, pyStrip kv.2 = "") :
    pickPrimaryLabel labels = "" := by
  unfold pickPrimaryLabel
  cases he : labels.lookup "en" with
  | none =>
    simp only [he, Option.getD_none]
    simp [show pyStrip "" = "" from rfl, pickPrimaryLabelAux_empty labels hall]
  | some v =>
    have hv := hall ("en", v) (lookup_mem he)
    simp only at hv
    simp [he, hv, pickPrimaryLabelAux_empty labels hall]

/-- C10: a dump entity with a supported Q/P id shape whose selected labels
(allowlist plus fallback) contain no non-empty value is dropped: the pass-1
transform returns `none` rather than storing an empty label. -/
theorem transform_drops_unlabeled (entity : Jv) (entityId : String)
    (allowlist : List String) (maxAliases maxContext : ℕ) (disableNer : Bool)
    (hid : (entity.getField "id").bind Jv.asStr = some entityId)
    (hsup : isSupportedEntityId entityId = true)
    (hlab : ∀ kv ∈ selectTextMapLanguages (extractMultilingualPayload entity).labels
      allowlist true, pyStrip kv.2 = "") :
    transformEntityToRecord entity allowlist maxAliases maxContext disableNer = none := by
  have hlabel : pickPrimaryLabel
      (selectTextMapLanguages (extractMultilingualPayload entity).labels allowlist true) = "" :=
    pickPrimaryLabel_empty _ hlab
  unfold transformEntityToRecord
  rw [hid]
  simp [hsup, hlabel]

/-- Witness for C10 at the concrete labelless entity `{"id": "Q1"}`. -/
theorem transform_drops_unlabeled_witness :
    ((((Jv.obj [("id", Jv.str "Q1")]).getField "id").bind Jv.asStr = some "Q1") ∧
     isSupportedEntityId "Q1" = true ∧
     (∀ kv ∈ selectTextMapLanguages
        (extractMultilingualPayload (Jv.obj [("id", Jv.str "Q1")])).labels ["en"] true,
        pyStrip kv.2 = "")) ∧
    transformEntityToRecord (Jv.obj [("id", Jv.str "Q1")]) ["en"] 8 32 false = none :=
  ⟨⟨rfl, by decide, by decide⟩,
   transform_drops_unlabeled (Jv.obj [("id", Jv.str "Q1")]) "Q1" ["en"] 8 32 false rfl
     (by decide) (by decide)⟩

theorem flattenLabelsAux_nodup (labels : List (String × String)) (langs : List String)
    (seen : List String) :
    (flattenLabelsAux labels seen langs).Nodup ∧
      ∀ y ∈ flattenLabelsAux labels seen langs, y ∉ seen := by
  induction langs generalizing seen with
  | nil => simp [flattenLabelsAux]
  | cons lang rest ih =>
    rw [flattenLabelsAux]
    cases hl : labels.lookup lang with
    | none => exact ih seen
    | some raw =>
      simp only []
      by_cases hv : normalizeText raw = "" ∨ normalizeText raw ∈ seen
      · simpa [hv] using ih seen
      · obtain ⟨h1, h2⟩ := ih (normalizeText raw :: seen)
        simp only [hv, if_false, List.nodup_cons]
        refine ⟨⟨fun hmem => (h2 _ hmem) (List.mem_cons_self _ _), h1⟩, ?_⟩
        intro y hy
        rcases List.mem_cons.mp hy with rfl | hy
        · exact fun hys => hv (Or.inr hys)
        · exact fun hys => h2 y hy (List.mem_cons_of_mem _ hys)

theorem flattenLabelsMap_nodup (labels : List (String × String)) :
    (flattenLabelsMap labels).Nodup :=
  (flattenLabelsAux_nodup labels _ []).1

theorem dedupNormAppend_spec (vs : List String) (seen : List String) :
    (dedupNormAppend seen vs).1.Nodup ∧
      (∀ y ∈ (dedupNormAppend seen vs).1, y ∉ seen) ∧
      (∀ y, y ∈ (dedupNormAppend seen vs).2 ↔ y ∈ seen ∨ y ∈ (dedupNormAppend seen vs).1) := by
  induction vs generalizing seen with
  | nil => simp [dedupNormAppend]
  | cons v rest ih =>
    rw [dedupNormAppend]
    by_cases hv : normalizeText v = "" ∨ normalizeText v ∈ seen
    · simpa [hv] using ih seen
    · obtain ⟨h1, h2, h3⟩ := ih (normalizeText v :: seen)
      simp only [hv, if_false, List.nodup_cons]
      refine ⟨⟨fun hmem => (h2 _ hmem) (List.mem_cons_self _ _), h1⟩, ?_, ?_⟩
      · intro y hy
        rcases List.mem_cons.mp hy with rfl | hy
        · exact fun hys => hv (Or.inr hys)
        · exact fun hys => h2 y hy (List.mem_cons_of_mem _ hys)
      · intro y
        rw [h3 y]
        simp only [List.mem_cons]
        constructor
        · rintro ((rfl | hy) | hy)
          · exact Or.inr (Or.inl rfl)
          · exact Or.inl hy
          · exact Or.inr (Or.inr hy)
        · rintro (hy | (rfl | hy))
          · exact Or.inl (Or.inr hy)
          · exact Or.inl (Or.inl rfl)
          · exact Or.inr hy

theorem flattenAliasesAux_nodup (aliases : List (String × List String)) (langs : List String)
    (seen : List String) :
    (flattenAliasesAux aliases seen langs).Nodup ∧
      ∀ y ∈ flattenAliasesAux aliases seen langs, y ∉ seen := by
  induction langs generalizing seen with
  | nil => simp [flattenAliasesAux]
  | cons lang rest ih =>
    rw [flattenAliasesAux]
    obtain ⟨hn, hns, hiff⟩ := dedupNormAppend_spec ((aliases.lookup lang).getD []) seen
    obtain ⟨h1, h2⟩ := ih (dedupNormAppend seen ((aliases.lookup lang).getD [])).2
    refine ⟨List.Nodup.append hn h1 ?_, ?_⟩
    · intro y hy1 hy2
      exact h2 y hy2 ((hiff y).mpr (Or.inr hy1))
    · intro y hy
      rcases List.mem_append.mp hy with hy | hy
      · exact hns y hy
      · exact fun hys => h2 y hy ((hiff y).mpr (Or.inl hys))

theorem flattenAliasesMap_nodup (aliases : List (String × List String)) :
    (flattenAliasesMap aliases).Nodup :=
  (flattenAliasesAux_nodup aliases _ []).1

/-- C4 counterexample: the stored lookup `aliases` column can contain internal
duplicates (a secondary label that is also an alias) and can contain the
primary label (an alias equal to the label), contradicting the claim. -/
theorem lookup_aliases_counterexample :
    lookupAliasesColumns "A" [("en", "A"), ("fr", "B")] [("en", ["B"])] = ["B", "B"] ∧
    ¬ (lookupAliasesColumns "A" [("en", "A"), ("fr", "B")] [("en", ["B"])]).Nodup ∧
    "X" ∈ lookupAliasesColumns "X" [("en", "X")] [("en", ["X"])] := by
  refine ⟨rfl, by decide, by decide⟩

/-- C4 amended: the stored aliases column is the concatenation of two segments,
each internally duplicate-free: the secondary labels with the normalised
primary label filtered out, then the flattened aliases.  The secondary-label
segment never contains the primary label, but the concatenation may repeat a
value present in both segments and the alias segment may contain the label. -/
theorem lookup_aliases_amended (label : String) (labels : List (String × String))
    (aliases : List (String × List String)) (h : normalizeText label ≠ "") :
    lookupAliasesColumns label labels aliases =
      (flattenLabelsMap labels).filter
        (fun v => v ≠ "" ∧ v ≠ normalizeText label) ++ flattenAliasesMap aliases ∧
    ((flattenLabelsMap labels).filter
      (fun v => v ≠ "" ∧ v ≠ normalizeText label)).Nodup ∧
    (flattenAliasesMap aliases).Nodup ∧
    normalizeText label ∉ (flattenLabelsMap labels).filter
      (fun v => v ≠ "" ∧ v ≠ normalizeText label) := by
  refine ⟨?_, List.Nodup.filter _ (flattenLabelsMap_nodup labels),
    flattenAliasesMap_nodup aliases, ?_⟩
  · unfold lookupAliasesColumns
    simp only []
    congr 1
    apply List.filter_congr
    intro v _
    apply decide_eq_decide.mpr
    constructor
    · rintro ⟨h1, h2 | h2⟩
      · exact absurd h2 h
      · exact ⟨h1, h2⟩
    · rintro ⟨h1, h2⟩
      exact ⟨h1, Or.inr h2⟩
  · intro hmem
    have hp := List.of_mem_filter hmem
    simp only [decide_eq_true_eq] at hp
    exact hp.2 rfl

/-- Witness for C4's amended theorem at label `X`, labels `{en: X}`, no aliases. -/
theorem lookup_aliases_amended_witness :
    normalizeText "X" ≠ "" ∧
    (lookupAliasesColumns "X" [("en", "X")] [] =
      (flattenLabelsMap [("en", "X")]).filter
        (fun v => v ≠ "" ∧ v ≠ normalizeText "X") ++ flattenAliasesMap [] ∧
    ((flattenLabelsMap [("en", "X")]).filter
      (fun v => v ≠ "" ∧ v ≠ normalizeText "X")).Nodup ∧
    (flattenAliasesMap ([] : List (String × List String))).Nodup ∧
    normalizeText "X" ∉ (flattenLabelsMap [("en", "X")]).filter
      (fun v => v ≠ "" ∧ v ≠ normalizeText "X")) :=
  ⟨by decide, lookup_aliases_amended "X" [("en", "X")] [] (by decide)⟩

set_option maxRecDepth 20000 in
/-- C3 counterexample: pass 2 writes the 700-character context string of `Q1`
unchanged; nothing truncates it to the claimed 640-character bound. -/
theorem context_string_not_truncated :
    buildContextUpdates c3Store ["Q1"] = [("Q1", c3LongLabel)] ∧
    640 < c3LongLabel.length := by
  exact ⟨rfl, by decide⟩

/-- C3 amended: every `(qid, context_string)` row written by pass 2 carries
exactly the stripped resolved labels of that entity's relation objects,
deduplicated, sorted, and joined with `"; "` — with no length truncation. -/
theorem buildContextUpdates_per_entity (store : StoreModel) (qids : List String) :
    buildContextUpdates store qids =
      (loadContextInputs store qids).map (fun p => (p.1, contextStringFor store p.2)) := by
  unfold buildContextUpdates contextStringFor
  apply List.map_congr_left
  intro p hp
  dsimp only
  have heq : p.2.filterMap
      (fun o => (resolveLabelsMap store
        (dedupFirst ((loadContextInputs store qids).flatMap (fun p => p.2))) o).map pyStrip) =
      p.2.filterMap (fun o => (resolveOneLabel store o).map pyStrip) := by
    apply List.filterMap_congr
    intro o ho
    have hmem : o ∈ dedupFirst ((loadContextInputs store qids).flatMap (fun p => p.2)) := by
      rw [mem_dedupFirst]
      exact List.mem_flatMap.mpr ⟨p, hp, ho⟩
    unfold resolveLabelsMap
    rw [if_pos hmem]
  rw [heq]

theorem sortFields_cacheKey (v1 v2 v3 v4 v5 v6 : Jv) :
    sortFields [("mention_norm", v1), ("context_terms", v2), ("coarse_hints", v3),
      ("fine_hints", v4), ("limit", v5), ("include_top_k", v6)] =
      [("coarse_hints", v3), ("context_terms", v2), ("fine_hints", v4),
       ("include_top_k", v6), ("limit", v5), ("mention_norm", v1)] := by
  rfl

theorem encJv_strList (fuel : ℕ) (xs : List String) :
    encJv (fuel + 2) (Jv.arr (xs.map Jv.str)) =
      "[" ++ String.intercalate "," (xs.map jsonStrEnc) ++ "]" := by
  have h : (xs.map Jv.str).map (encJv (fuel + 1)) = xs.map jsonStrEnc := by
    rw [List.map_map]
    apply List.map_congr_left
    intro x _
    rfl
  show "[" ++ String.intercalate "," ((xs.map Jv.str).map (encJv (fuel + 1))) ++ "]" =
    "[" ++ String.intercalate "," (xs.map jsonStrEnc) ++ "]"
  rw [h]

/-- C6 counterexample: the cache key computed by the code is not the digest of
the spec's seven-field payload (which would include `crosslink_terms`); at a
concrete query the two SHA-256 digests differ. -/
theorem build_cache_key_counterexample :
    buildCacheKey "apple" [] [] [] 20 false ≠
      buildCacheKeySpec "apple" [] [] [] [] 20 false := by
  set_option maxRecDepth 100000 in decide

/-- C6 amended: the cache key is the SHA-256 hex digest of the canonical JSON
object with exactly the six keys `coarse_hints, context_terms, fine_hints,
include_top_k, limit, mention_norm` (sorted keys, compact separators);
`crosslink_terms` is not part of the key — the lookup service accepts no
crosslink input at all. -/
theorem build_cache_key_canonical (mn : String) (ct ch fh : List String) (l : Int)
    (itk : Bool) :
    buildCacheKey mn ct ch fh l itk =
      sha256Hex ("\x7b" ++ String.intercalate ","
        [jsonStrEnc "coarse_hints" ++ ":" ++
           ("[" ++ String.intercalate "," (ch.map jsonStrEnc) ++ "]"),
         jsonStrEnc "context_terms" ++ ":" ++
           ("[" ++ String.intercalate "," (ct.map jsonStrEnc) ++ "]"),
         jsonStrEnc "fine_hints" ++ ":" ++
           ("[" ++ String.intercalate "," (fh.map jsonStrEnc) ++ "]"),
         jsonStrEnc "include_top_k" ++ ":" ++ (if itk then "true" else "false"),
         jsonStrEnc "limit" ++ ":" ++ toString l,
         jsonStrEnc "mention_norm" ++ ":" ++ jsonStrEnc mn] ++ "\x7d") := by
  unfold buildCacheKey buildCacheKeyPayload
  apply congrArg sha256Hex
  show "\x7b" ++ String.intercalate ","
      ((sortFields [("mention_norm", Jv.str mn), ("context_terms", Jv.arr (ct.map Jv.str)),
        ("coarse_hints", Jv.arr (ch.map Jv.str)), ("fine_hints", Jv.arr (fh.map Jv.str)),
        ("limit", Jv.int l), ("include_top_k", Jv.bool itk)]).map
        (fun kv => jsonStrEnc kv.1 ++ ":" ++ encJv 2 kv.2)) ++ "\x7d" = _
  rw [sortFields_cacheKey]
  simp only [List.map_cons, List.map_nil]
  rw [show (2 : ℕ) = 0 + 2 from rfl, encJv_strList 0 ch, encJv_strList 0 ct,
    encJv_strList 0 fh]
  rfl

set_option maxRecDepth 100000 in
/-- C8 counterexample: a valid lookup whose exact phase finds one hit reports
strategy `"exact"`, not `"fuzzy"`. -/
theorem lookup_strategy_not_always_fuzzy :
    ((lookup c8Backend emptyQueryCache "apple" [] [] [] 2 false false).toOption.map
      (fun p => p.1.strategy)) = some "exact" ∧ ("exact" : String) ≠ "fuzzy" := by
  exact ⟨rfl, by decide⟩

/-- C8 amended: a fresh (non-cached) lookup reports one of the three strategies
`exact`, `exact_disambiguated`, `fuzzy`, and reports `fuzzy` exactly when the
exact phase returned no hits. -/
theorem fresh_response_strategy (es : SearchBackend) (mentionValue mentionNorm : String)
    (contextTerms normalizedCoarse normalizedFine : List String) (limit : ℕ)
    (includeTopK : Bool) :
    (freshResponse es mentionValue mentionNorm contextTerms normalizedCoarse normalizedFine
        limit includeTopK).strategy ∈
      (["exact", "exact_disambiguated", "fuzzy"] : List String) ∧
    ((freshResponse es mentionValue mentionNorm contextTerms normalizedCoarse normalizedFine
        limit includeTopK).strategy = "fuzzy" ↔
      es.exactSearch mentionNorm normalizedCoarse normalizedFine (max 10 limit) = []) := by
  unfold freshResponse
  rcases hits : es.exactSearch mentionNorm normalizedCoarse normalizedFine (max 10 limit) with
    _ | ⟨a, _ | ⟨b, tl⟩⟩
  · simp
  · simp
  · simp

/-- C1: two lookups with identical inputs against the same catalog (backend),
with the cache enabled and the first response freshly computed, return
structurally identical responses except for `cache_hit`: false on the first,
true on the second. -/
theorem lookup_cache_roundtrip (es : SearchBackend) (cache : QueryCache)
    (mention : String) (mentionContext coarseHints fineHints : List String)
    (topK : ℕ) (includeTopK : Bool) (r1 r2 : Response) (c1 c2 : QueryCache)
    (h1 : lookup es cache mention mentionContext coarseHints fineHints topK includeTopK true
      = .ok (r1, c1))
    (h2 : lookup es c1 mention mentionContext coarseHints fineHints topK includeTopK true
      = .ok (r2, c2))
    (h0 : r1.cacheHit = false) :
    r2 = { r1 with cacheHit := true } := by
  simp only [lookup] at h1 h2
  by_cases hmv : pyStrip mention = ""
  · rw [if_pos hmv] at h1
    simp at h1
  rw [if_neg hmv] at h1 h2
  by_cases hmn : normalizeExactText (pyStrip mention) = ""
  · rw [if_pos hmn] at h1
    simp at h1
  rw [if_neg hmn] at h1 h2
  rcases hnc : normalizeTypeLabels coarseHints with e | nc
  · rw [hnc] at h1
    simp at h1
  rcases hnf : normalizeTypeLabels fineHints with e | nf
  · rw [hnc, hnf] at h1
    simp at h1
  rw [hnc, hnf] at h1 h2
  dsimp only at h1 h2
  simp only [getQueryCache, if_true] at h1 h2
  rcases hck : cache (buildCacheKey (normalizeExactText (pyStrip mention))
      (normalizeContextInputs mentionContext) nc nf (max 1 (min 100 topK) : ℕ) includeTopK)
    with _ | cached
  · rw [hck] at h1
    dsimp only at h1
    simp only [Except.ok.injEq, Prod.mk.injEq] at h1
    obtain ⟨hr1, hc1⟩ := h1
    rw [← hc1] at h2
    rw [show ∀ resp, putQueryCache cache (buildCacheKey (normalizeExactText (pyStrip mention))
        (normalizeContextInputs mentionContext) nc nf (max 1 (min 100 topK) : ℕ) includeTopK)
        resp (buildCacheKey (normalizeExactText (pyStrip mention))
        (normalizeContextInputs mentionContext) nc nf (max 1 (min 100 topK) : ℕ) includeTopK)
        = some resp from fun resp => by unfold putQueryCache; rw [if_pos rfl]] at h2
    dsimp only at h2
    simp only [Except.ok.injEq, Prod.mk.injEq] at h2
    rw [← h2.1, ← hr1]
  · rw [hck] at h1
    dsimp only at h1
    simp only [Except.ok.injEq, Prod.mk.injEq] at h1
    have : r1.cacheHit = true := by rw [← h1.1]
    rw [h0] at this
    cases this

set_option maxRecDepth 200000 in
/-- Witness for C1: a concrete double lookup against an empty backend, the
second hitting the cache written by the first. -/
theorem lookup_cache_roundtrip_witness :
    (lookup emptyBackend emptyQueryCache "apple" [] [] [] 2 false true
      = .ok (c1Res1.1, c1Res1.2)) ∧
    (lookup emptyBackend c1Res1.2 "apple" [] [] [] 2 false true
      = .ok (c1Res2.1, c1Res2.2)) ∧
    c1Res1.1.cacheHit = false ∧
    c1Res2.1 = { c1Res1.1 with cacheHit := true } :=
  ⟨rfl, rfl, rfl,
   lookup_cache_roundtrip emptyBackend emptyQueryCache "apple" [] [] [] 2 false
     c1Res1.1 c1Res2.1 c1Res1.2 c1Res2.2 rfl rfl rfl⟩

theorem charListLe_total (x : List Char) : ∀ y, charListLe x y = true ∨ charListLe y x = true := by
  induction x with
  | nil => intro y; exact Or.inl rfl
  | cons a as ih =>
    intro y
    cases y with
    | nil => exact Or.inr rfl
    | cons b bs =>
      rcases Nat.lt_trichotomy a.toNat b.toNat with h | h | h
      · exact Or.inl (by simp [charListLe, h])
      · have hba : ¬ b.toNat < a.toNat := by omega
        have hab : ¬ a.toNat < b.toNat := by omega
        rcases ih bs with h2 | h2
        · exact Or.inl (by simp [charListLe, hab, hba, h2])
        · exact Or.inr (by simp [charListLe, hab, hba, h2])
      · exact Or.inr (by simp [charListLe, h])

theorem charListLe_trans (x : List Char) :
    ∀ y z, charListLe x y = true → charListLe y z = true → charListLe x z = true := by
  induction x with
  | nil => intro y z _ _; rfl
  | cons a as ih =>
    intro y z hxy hyz
    cases y with
    | nil => simp [charListLe] at hxy
    | cons b bs =>
      cases z with
      | nil => simp [charListLe] at hyz
      | cons c cs =>
        simp only [charListLe] at hxy hyz ⊢
        by_cases hab : a.toNat < b.toNat
        · by_cases hbc : b.toNat < c.toNat
          · simp [show a.toNat < c.toNat from by omega]
          · by_cases hcb : c.toNat < b.toNat
            · simp [hbc, hcb] at hyz
            · simp [show a.toNat < c.toNat from by omega]
        · by_cases hba : b.toNat < a.toNat
          · simp [hab, hba] at hxy
          · by_cases hbc : b.toNat < c.toNat
            · simp [show a.toNat < c.toNat from by omega]
            · by_cases hcb : c.toNat < b.toNat
              · simp [hbc, hcb] at hyz
              · have hac : ¬ a.toNat < c.toNat := by omega
                have hca : ¬ c.toNat < a.toNat := by omega
                simp only [hab, hba, if_false] at hxy
                simp only [hbc, hcb, if_false] at hyz
                simp [hac, hca, ih bs cs hxy hyz]

theorem pyStrLe_total (a b : String) : pyStrLe a b ∨ pyStrLe b a :=
  charListLe_total a.data b.data

theorem pyStrLe_trans (a b c : String) (h1 : pyStrLe a b) (h2 : pyStrLe b c) : pyStrLe a c :=
  charListLe_trans a.data b.data c.data h1 h2

theorem lexComp_total {α β : Type} [LinearOrder β] (f : α → β) (r : α → α → Prop)
    (hr : ∀ a b, r a b ∨ r b a) (a b : α) : lexComp f r a b ∨ lexComp f r b a := by
  rcases lt_trichotomy (f a) (f b) with h | h | h
  · exact Or.inl (Or.inl h)
  · rcases hr a b with h2 | h2
    · exact Or.inl (Or.inr ⟨h, h2⟩)
    · exact Or.inr (Or.inr ⟨h.symm, h2⟩)
  · exact Or.inr (Or.inl h)

theorem lexComp_trans {α β : Type} [LinearOrder β] (f : α → β) (r : α → α → Prop)
    (hr : ∀ a b c, r a b → r b c → r a c) (a b c : α)
    (h1 : lexComp f r a b) (h2 : lexComp f r b c) : lexComp f r a c := by
  rcases h1 with h1 | ⟨h1e, h1r⟩
  · rcases h2 with h2 | ⟨h2e, _⟩
    · exact Or.inl (lt_trans h1 h2)
    · exact Or.inl (h2e ▸ h1)
  · rcases h2 with h2 | ⟨h2e, h2r⟩
    · exact Or.inl (h1e ▸ h2)
    · exact Or.inr ⟨h1e.trans h2e, hr a b c h1r h2r⟩

theorem rerankLeB_total (a b : Scored) : rerankLeB a b ∨ rerankLeB b a :=
  lexComp_total (fun s => -s.finalScore)
    (lexComp (fun s => -scoredExactNum s)
      (lexComp (fun s => -s.priorScore) (fun x y => pyStrLe x.qid y.qid)))
    (fun x y => lexComp_total (fun s => -scoredExactNum s)
      (lexComp (fun s => -s.priorScore) (fun x y => pyStrLe x.qid y.qid))
      (fun x y => lexComp_total (fun s => -s.priorScore)
        (fun x y => pyStrLe x.qid y.qid)
        (fun x y => pyStrLe_total x.qid y.qid) x y) x y) a b

theorem rerankLeB_trans (a b c : Scored) (h1 : rerankLeB a b) (h2 : rerankLeB b c) :
    rerankLeB a c :=
  lexComp_trans (fun s => -s.finalScore)
    (lexComp (fun s => -scoredExactNum s)
      (lexComp (fun s => -s.priorScore) (fun x y => pyStrLe x.qid y.qid)))
    (fun x y z hx hy => lexComp_trans (fun s => -scoredExactNum s)
      (lexComp (fun s => -s.priorScore) (fun x y => pyStrLe x.qid y.qid))
      (fun x y z hx hy => lexComp_trans (fun s => -s.priorScore)
        (fun x y => pyStrLe x.qid y.qid)
        (fun x y z hx hy => pyStrLe_trans x.qid y.qid z.qid hx hy) x y z hx hy)
      x y z hx hy) a b c h1 h2

theorem normalizeScoreRange_length (values : List ℚ) :
    (normalizeScoreRange values).length = values.length := by
  cases values with
  | nil => rfl
  | cons v vs =>
    unfold normalizeScoreRange
    by_cases h : vs.foldl max v ≤ vs.foldl min v <;> simp [h]

/-- Tie-breaking content of `rerankLeB`: on equal `final_score`, exact matches
first, then higher `prior_score`, then the code-point-smaller qid. -/
theorem rerankLeB_tie (a b : Scored) (h : rerankLeB a b)
    (hf : a.finalScore = b.finalScore) :
    (b.exactNameMatch = true → a.exactNameMatch = true) ∧
    (a.exactNameMatch = b.exactNameMatch → b.priorScore ≤ a.priorScore) ∧
    (a.exactNameMatch = b.exactNameMatch → a.priorScore = b.priorScore →
      pyStrLe a.qid b.qid) := by
  unfold rerankLeB lexComp at h
  dsimp only at h
  rcases h with h | ⟨_, h⟩
  · exfalso
    rw [hf] at h
    exact lt_irrefl _ h
  refine ⟨?_, ?_, ?_⟩
  · intro hb
    cases hx : a.exactNameMatch
    · exfalso
      rcases h with h | ⟨he, _⟩
      · norm_num [scoredExactNum, hb, hx] at h
      · norm_num [scoredExactNum, hb, hx] at he
    · rfl
  · intro hab
    have he : scoredExactNum a = scoredExactNum b := by
      rw [scoredExactNum, scoredExactNum, hab]
    rcases h with h | ⟨_, h⟩
    · exfalso
      rw [he] at h
      exact lt_irrefl _ h
    rcases h with h | ⟨hp, _⟩
    · linarith
    · have := neg_inj.mp hp
      linarith
  · intro hab hpr
    have he : scoredExactNum a = scoredExactNum b := by
      rw [scoredExactNum, scoredExactNum, hab]
    rcases h with h | ⟨_, h⟩
    · exfalso
      rw [he] at h
      exact lt_irrefl _ h
    rcases h with h | ⟨_, hq⟩
    · exfalso
      rw [hpr] at h
      exact lt_irrefl _ h
    · exact hq

/-- C2: the reranker's output is sorted by the key
`(−final_score, −exact_name_match, −prior_score, qid ascending)` (so equal
final scores are broken by exact-name flag, then prior score, then smaller
qid) and is truncated to `limit`. -/
theorem rerank_candidates_ordered (candidates : List Candidate) (mentionNorm : String)
    (contextTerms coarseHints fineHints : List String) (weights : LookupWeights)
    (exactMode : Bool) (limit : ℕ) :
    (rerankCandidates candidates mentionNorm contextTerms coarseHints fineHints weights
      exactMode limit).Sorted rerankLeB ∧
    (rerankCandidates candidates mentionNorm contextTerms coarseHints fineHints weights
      exactMode limit).length = min limit (dedupeCandidates candidates).length ∧
    (rerankCandidates candidates mentionNorm contextTerms coarseHints fineHints weights
      exactMode limit).Pairwise (fun a b => a.finalScore = b.finalScore →
        (b.exactNameMatch = true → a.exactNameMatch = true) ∧
        (a.exactNameMatch = b.exactNameMatch → b.priorScore ≤ a.priorScore) ∧
        (a.exactNameMatch = b.exactNameMatch → a.priorScore = b.priorScore →
          pyStrLe a.qid b.qid)) := by
  haveI htot : IsTotal Scored rerankLeB := ⟨rerankLeB_total⟩
  haveI htr : IsTrans Scored rerankLeB := ⟨rerankLeB_trans⟩
  unfold rerankCandidates
  by_cases hd : dedupeCandidates candidates = []
  · simp [hd]
  · simp only [hd, if_false]
    have hsorted := List.sorted_insertionSort rerankLeB
      (List.insertionSort rerankGeA
        (((dedupeCandidates candidates).zip
            (normalizeScoreRange ((dedupeCandidates candidates).map (fun c => c.score)))).map
          (fun p => scoreCandidate weights mentionNorm (dedupFirst contextTerms)
            (dedupFirst coarseHints) (dedupFirst fineHints) exactMode p.1 p.2)))
    have htake : ∀ (l : List Scored), l.Sorted rerankLeB → (l.take limit).Sorted rerankLeB :=
      fun l hl => hl.sublist (List.take_sublist limit l)
    refine ⟨htake _ hsorted, ?_, ?_⟩
    · rw [List.length_take]
      congr 1
      rw [(List.perm_insertionSort rerankLeB _).length_eq]
      rw [(List.perm_insertionSort rerankGeA _).length_eq]
      rw [List.length_map, List.length_zip, normalizeScoreRange_length, List.length_map,
        min_self]
    · exact (htake _ hsorted).imp (fun h hf => rerankLeB_tie _ _ h hf)

theorem fineTypeRules_minScore_pos : ∀ r ∈ fineTypeRules, 1 ≤ r.minScore := by decide

theorem ruleSortLe_total (a b : ℕ × FineTypeRule) : ruleSortLe a b ∨ ruleSortLe b a :=
  lexComp_total (fun sr : ℕ × FineTypeRule => -(sr.1 : ℤ))
    (fun x y => pyStrLe x.2.fine y.2.fine)
    (fun x y => pyStrLe_total x.2.fine y.2.fine) a b

theorem ruleSortLe_trans (a b c : ℕ × FineTypeRule) (h1 : ruleSortLe a b)
    (h2 : ruleSortLe b c) : ruleSortLe a c :=
  lexComp_trans (fun sr : ℕ × FineTypeRule => -(sr.1 : ℤ))
    (fun x y => pyStrLe x.2.fine y.2.fine)
    (fun x y z hx hy => pyStrLe_trans x.2.fine y.2.fine z.2.fine hx hy) a b c h1 h2

theorem coarseSortLe_total (a b : String × ℕ) : coarseSortLe a b ∨ coarseSortLe b a :=
  lexComp_total (fun p : String × ℕ => -(p.2 : ℤ)) (fun x y => pyStrLe x.1 y.1)
    (fun x y => pyStrLe_total x.1 y.1) a b

theorem coarseSortLe_trans (a b c : String × ℕ) (h1 : coarseSortLe a b)
    (h2 : coarseSortLe b c) : coarseSortLe a c :=
  lexComp_trans (fun p : String × ℕ => -(p.2 : ℤ)) (fun x y => pyStrLe x.1 y.1)
    (fun x y z hx hy => pyStrLe_trans x.1 y.1 z.1 hx hy) a b c h1 h2

theorem nerScoredRules_spec (labels : List (String × String))
    (aliases : List (String × List String)) (descriptions : List (String × String)) :
    ∀ sr ∈ nerScoredRules labels aliases descriptions,
      sr.2 ∈ fineTypeRules ∧
      sr.1 = ruleScore sr.2 (nerTokenSet labels aliases descriptions)
        (nerNormalizedText labels aliases descriptions) ∧
      sr.2.minScore ≤ sr.1 := by
  intro sr hsr
  rw [nerScoredRules, List.mem_filterMap] at hsr
  obtain ⟨rule, hrule, heq⟩ := hsr
  dsimp only at heq
  by_cases hmin : rule.minScore ≤ ruleScore rule (nerTokenSet labels aliases descriptions)
      (nerNormalizedText labels aliases descriptions)
  · rw [if_pos hmin] at heq
    cases heq
    exact ⟨hrule, rfl, hmin⟩
  · rw [if_neg hmin] at heq
    cases heq

theorem upsertAdd_ne_nil (m : List (String × ℕ)) (k : String) (v : ℕ) :
    upsertAdd m k v ≠ [] := by
  cases m with
  | nil => simp [upsertAdd]
  | cons x xs =>
    rcases x with ⟨k0, v0⟩
    rw [upsertAdd]
    split <;> simp

theorem foldl_upsertAdd_ne_nil (l : List (ℕ × FineTypeRule)) :
    ∀ m : List (String × ℕ), m ≠ [] →
      l.foldl (fun m sr => upsertAdd m sr.2.coarse sr.1) m ≠ [] := by
  induction l with
  | nil => intro m hm; exact hm
  | cons a rest ih =>
    intro m _
    exact ih _ (upsertAdd_ne_nil m a.2.coarse a.1)

theorem coarseScores_entries (S : List (ℕ × FineTypeRule)) (top : ℕ)
    (hlen : S.length ≤ 2) (hsc : ∀ sr ∈ S, sr.1 = top) :
    ∀ e ∈ S.foldl (fun m sr => upsertAdd m sr.2.coarse sr.1) [],
      e.2 = top * coarseCount S e.1 := by
  rcases S with _ | ⟨a, _ | ⟨b, _ | ⟨c, tl⟩⟩⟩
  · simp
  · intro e he
    have ha := hsc a (by simp)
    simp only [List.foldl, upsertAdd, List.mem_singleton] at he
    subst he
    simp [coarseCount, ha]
  · intro e he
    have ha := hsc a (by simp)
    have hb := hsc b (by simp)
    simp only [List.foldl, upsertAdd] at he
    by_cases hc : a.2.coarse = b.2.coarse
    · rw [if_pos hc] at he
      simp only [List.mem_singleton] at he
      subst he
      have hcb : b.2.coarse = a.2.coarse := hc.symm
      simp [coarseCount, hcb, ha, hb]
      ring
    · rw [if_neg hc] at he
      have hcb : ¬ b.2.coarse = a.2.coarse := fun h => hc h.symm
      rcases List.mem_cons.mp he with rfl | he2
      · simp [coarseCount, hcb, ha]
      · simp only [List.mem_singleton] at he2
        subst he2
        simp [coarseCount, hc, hb]
  · exfalso
    simp at hlen

theorem coarseSortLe_transfer (S : List (ℕ × FineTypeRule)) (top : ℕ) (htop : 1 ≤ top)
    (x y : String × ℕ) (hx : x.2 = top * coarseCount S x.1)
    (hy : y.2 = top * coarseCount S y.1) (h : coarseSortLe x y) :
    coarseCountLe S x.1 y.1 := by
  unfold coarseSortLe lexComp at h
  dsimp only at h
  rcases h with h | ⟨he, hs⟩
  · left
    have hlt : y.2 < x.2 := by exact_mod_cast neg_lt_neg_iff.mp h
    rw [hx, hy] at hlt
    exact Nat.lt_of_mul_lt_mul_left hlt
  · right
    have heq : x.2 = y.2 := by exact_mod_cast neg_inj.mp he
    rw [hx, hy] at heq
    exact ⟨Nat.eq_of_mul_eq_mul_left (by omega) heq, hs⟩

/-- C9: for Q-prefixed entities with non-empty text values and at least one
passing rule, the NER typer scores rules as `#token_clues + 2·#phrase_clues`,
keeps those meeting `min_score`, sorts them by `(−score, fine)`, selects the
top plus a second only on a score tie, and emits at most two fine types in
selection order and at most two coarse types sorted by `(−count, label)`. -/
theorem infer_ner_types_selection (entityId : String) (labels : List (String × String))
    (aliases : List (String × List String)) (descriptions : List (String × String))
    (hq : strStartsWith entityId "Q" = true)
    (hne : iterTextValues labels aliases descriptions ≠ [])
    (hsr : nerScoredRules labels aliases descriptions ≠ []) :
    inferNerTypes entityId labels aliases descriptions =
      (nerCoarseTypes labels aliases descriptions,
       nerFineTypes labels aliases descriptions, "lexical_v1") ∧
    (∀ sr ∈ nerScoredRules labels aliases descriptions,
      sr.2 ∈ fineTypeRules ∧
      sr.1 = ruleScore sr.2 (nerTokenSet labels aliases descriptions)
        (nerNormalizedText labels aliases descriptions) ∧
      sr.2.minScore ≤ sr.1) ∧
    (nerSortedRules labels aliases descriptions).Sorted ruleSortLe ∧
    (nerSelected labels aliases descriptions).length ≤ 2 ∧
    (∀ sr ∈ nerSelected labels aliases descriptions,
      sr.1 = nerTopScore labels aliases descriptions) ∧
    nerFineTypes labels aliases descriptions =
      dedupFirst ((nerSelected labels aliases descriptions).map (fun sr => sr.2.fine)) ∧
    (nerFineTypes labels aliases descriptions).length ≤ 2 ∧
    (nerCoarseTypes labels aliases descriptions).length ≤ 2 ∧
    (nerCoarseTypes labels aliases descriptions).Sorted
      (coarseCountLe (nerSelected labels aliases descriptions)) := by
  haveI : IsTotal (ℕ × FineTypeRule) ruleSortLe := ⟨ruleSortLe_total⟩
  haveI : IsTrans (ℕ × FineTypeRule) ruleSortLe := ⟨ruleSortLe_trans⟩
  haveI : IsTotal (String × ℕ) coarseSortLe := ⟨coarseSortLe_total⟩
  haveI : IsTrans (String × ℕ) coarseSortLe := ⟨coarseSortLe_trans⟩
  have hperm := List.perm_insertionSort ruleSortLe (nerScoredRules labels aliases descriptions)
  have hsort_ne : nerSortedRules labels aliases descriptions ≠ [] := by
    intro h
    apply hsr
    rw [nerSortedRules] at h
    have hp2 := hperm
    rw [h] at hp2
    exact hp2.symm.eq_nil
  obtain ⟨hd, tl, hcons⟩ : ∃ hd tl, nerSortedRules labels aliases descriptions = hd :: tl := by
    cases h : nerSortedRules labels aliases descriptions with
    | nil => exact absurd h hsort_ne
    | cons x xs => exact ⟨x, xs, rfl⟩
  have htop : nerTopScore labels aliases descriptions = hd.1 := by
    rw [nerTopScore, hcons]
    rfl
  have hscored_spec := nerScoredRules_spec labels aliases descriptions
  have hhd_scored : hd ∈ nerScoredRules labels aliases descriptions := by
    have hmem : hd ∈ nerSortedRules labels aliases descriptions := by
      rw [hcons]; exact List.mem_cons_self _ _
    rw [nerSortedRules] at hmem
    exact hperm.subset hmem
  have htop_pos : 1 ≤ nerTopScore labels aliases descriptions := by
    rw [htop]
    obtain ⟨hrule, _, hmin⟩ := hscored_spec hd hhd_scored
    have h1 := fineTypeRules_minScore_pos hd.2 hrule
    omega
  have hsel_mem : ∀ sr ∈ nerSelected labels aliases descriptions,
      sr.1 = nerTopScore labels aliases descriptions := by
    intro sr h
    have h2 := List.mem_of_mem_take h
    have h3 := List.of_mem_filter h2
    exact of_decide_eq_true h3
  have hsel_len : (nerSelected labels aliases descriptions).length ≤ 2 := by
    rw [nerSelected]
    exact List.length_take_le 2 _
  have hsel_ne : nerSelected labels aliases descriptions ≠ [] := by
    have hmem : hd ∈ (nerSortedRules labels aliases descriptions).filter
        (fun sr => sr.1 = nerTopScore labels aliases descriptions) := by
      apply List.mem_filter.mpr
      refine ⟨by rw [hcons]; exact List.mem_cons_self _ _, ?_⟩
      rw [htop]
      simp
    intro h
    rw [nerSelected] at h
    cases hf : (nerSortedRules labels aliases descriptions).filter
        (fun sr => sr.1 = nerTopScore labels aliases descriptions) with
    | nil => rw [hf] at hmem; cases hmem
    | cons x xs =>
      rw [hf] at h
      simp [List.take] at h
  have hcs_ne : nerCoarseScores labels aliases descriptions ≠ [] := by
    rw [nerCoarseScores]
    cases hs : nerSelected labels aliases descriptions with
    | nil => exact absurd hs hsel_ne
    | cons s rest =>
      simp only [List.foldl]
      exact foldl_upsertAdd_ne_nil rest _ (upsertAdd_ne_nil [] s.2.coarse s.1)
  have hsc_perm := List.perm_insertionSort coarseSortLe
    (nerCoarseScores labels aliases descriptions)
  have hscoarse_ne : nerSortedCoarse labels aliases descriptions ≠ [] := by
    intro h
    apply hcs_ne
    rw [nerSortedCoarse] at h
    have hp2 := hsc_perm
    rw [h] at hp2
    exact hp2.symm.eq_nil
  have hct_ne : nerCoarseTypes labels aliases descriptions ≠ [] := by
    rw [nerCoarseTypes]
    cases h : nerSortedCoarse labels aliases descriptions with
    | nil => exact absurd h hscoarse_ne
    | cons x xs => simp [List.take]
  have hft_ne : nerFineTypes labels aliases descriptions ≠ [] := by
    rw [nerFineTypes]
    cases hs : nerSelected labels aliases descriptions with
    | nil => exact absurd hs hsel_ne
    | cons s rest => simp [dedupFirst, dedupFirstAux]
  have hentries := coarseScores_entries (nerSelected labels aliases descriptions)
    (nerTopScore labels aliases descriptions) hsel_len hsel_mem
  have hsorted_coarse : (nerSortedCoarse labels aliases descriptions).Sorted coarseSortLe := by
    rw [nerSortedCoarse]
    exact List.sorted_insertionSort _ _
  have htake2 : ((nerSortedCoarse labels aliases descriptions).take 2).Sorted coarseSortLe :=
    hsorted_coarse.sublist (List.take_sublist 2 _)
  have hpw : ((nerSortedCoarse labels aliases descriptions).take 2).Pairwise
      (fun x y => coarseCountLe (nerSelected labels aliases descriptions) x.1 y.1) := by
    apply List.Pairwise.imp_of_mem ?_ htake2
    intro x y hx hy hxy
    have hxm : x ∈ nerCoarseScores labels aliases descriptions := by
      have := List.mem_of_mem_take hx
      rw [nerSortedCoarse] at this
      exact hsc_perm.subset this
    have hym : y ∈ nerCoarseScores labels aliases descriptions := by
      have := List.mem_of_mem_take hy
      rw [nerSortedCoarse] at this
      exact hsc_perm.subset this
    exact coarseSortLe_transfer _ _ htop_pos x y
      (hentries x (by rw [nerCoarseScores] at hxm; exact hxm))
      (hentries y (by rw [nerCoarseScores] at hym; exact hym)) hxy
  have hfinal : (nerCoarseTypes labels aliases descriptions).Pairwise
      (coarseCountLe (nerSelected labels aliases descriptions)) := by
    rw [nerCoarseTypes, List.pairwise_map]
    exact hpw
  refine ⟨?_, hscored_spec, ?_, hsel_len, hsel_mem, rfl, ?_, ?_, hfinal⟩
  · have hP := strStartsWith_q_not_p hq
    rw [inferNerTypes, if_neg (by simp [hP]), if_neg hne, if_neg hsr,
      if_neg hct_ne, if_neg hft_ne]
  · rw [nerSortedRules]
    exact List.sorted_insertionSort _ _
  · rw [nerFineTypes]
    refine le_trans (dedupFirst_length_le _) ?_
    rw [List.length_map]
    exact hsel_len
  · rw [nerCoarseTypes, List.length_map]
    exact List.length_take_le 2 _

set_option maxRecDepth 200000 in
/-- Witness for C9 at entity Q76 with an English label and description. -/
theorem infer_ner_types_selection_witness :
    inferNerTypes "Q76" c9Labels c9Aliases c9Descriptions =
      (nerCoarseTypes c9Labels c9Aliases c9Descriptions,
       nerFineTypes c9Labels c9Aliases c9Descriptions, "lexical_v1") ∧
    (∀ sr ∈ nerScoredRules c9Labels c9Aliases c9Descriptions,
      sr.2 ∈ fineTypeRules ∧
      sr.1 = ruleScore sr.2 (nerTokenSet c9Labels c9Aliases c9Descriptions)
        (nerNormalizedText c9Labels c9Aliases c9Descriptions) ∧
      sr.2.minScore ≤ sr.1) ∧
    (nerSortedRules c9Labels c9Aliases c9Descriptions).Sorted ruleSortLe ∧
    (nerSelected c9Labels c9Aliases c9Descriptions).length ≤ 2 ∧
    (∀ sr ∈ nerSelected c9Labels c9Aliases c9Descriptions,
      sr.1 = nerTopScore c9Labels c9Aliases c9Descriptions) ∧
    nerFineTypes c9Labels c9Aliases c9Descriptions =
      dedupFirst ((nerSelected c9Labels c9Aliases c9Descriptions).map (fun sr => sr.2.fine)) ∧
    (nerFineTypes c9Labels c9Aliases c9Descriptions).length ≤ 2 ∧
    (nerCoarseTypes c9Labels c9Aliases c9Descriptions).length ≤ 2 ∧
    (nerCoarseTypes c9Labels c9Aliases c9Descriptions).Sorted
      (coarseCountLe (nerSelected c9Labels c9Aliases c9Descriptions)) :=
  infer_ner_types_selection "Q76" c9Labels c9Aliases c9Descriptions (by decide) (by decide)
    (by decide)

end Alpaca
